import Mathlib

/-!
Verification of the natural-language specification of
`plan_schedule.py` (ATCA schedule planner) against a shallow embedding
of its code.

Conventions used throughout this development:

* Python floats are modelled as real numbers (`ℝ`).  Python decimal
  literals such as `38.0 / 60.0` or `0.5` are written as the equal
  rational literals `38 / 60`, `1 / 2`, and so on.
* Sources are identified by their (unique) names, modelled as natural
  numbers; a Python `ephem.FixedBody` is represented by its name, and
  its sky behaviour by explicit oracle functions.
* The external collaborators (the PyEphem position/rise/set oracle and
  the `atmos` mosaic sequencer), which the spec declares out of scope,
  are threaded through as explicit function parameters: `pos` gives a
  source's horizontal position at an instant, `riseOf`/`startElOf`
  give the first-cull oracle answers, and `seq` gives the mosaic
  sequencer's result for a segment.
* Python dictionaries keyed by source name are modelled as partial
  maps `ℕ → Option β` (distinguishing an absent key from a stored
  value, which the code's `in` tests rely on), except where the code
  iterates over the dictionary (`segmentsUp`), where an association
  list is used and Python's arbitrary iteration order is fixed to
  list order.
* `while` loops whose termination is not structural are given an
  explicit fuel parameter; every claim below is either invariant under
  fuel or evaluated at concrete fuel.
-/

namespace PlanSchedule

/-- A horizontal position: azimuth and elevation in degrees.  This is
the `{'az': ..., 'el': ...}` dictionary produced by `timeToPosition`
in `plan_schedule.py` (line 165). -/
structure Pos where
  az : ℝ
  el : ℝ

/-- Azimuth slew speed: 38 degrees per minute, in radians per second
(`plan_schedule.py` line 46; a local constant of `calcSlewTime`). -/
noncomputable def vslewaz : ℝ := 38 / 60 * Real.pi / 180

/-- Elevation slew speed: 19 degrees per minute, in radians per second
(line 47). -/
noncomputable def vslewel : ℝ := 19 / 60 * Real.pi / 180

/-- Slew acceleration: 800 degrees/second/second, in radians (line 48). -/
noncomputable def accel : ℝ := 800 / 3600 * Real.pi / 180

/-- Critical azimuth distance below which maximum speed is never
reached (line 49). -/
noncomputable def azcrit : ℝ := 1 / 2 * vslewaz * vslewaz / accel

/-- Critical elevation distance (line 50). -/
noncomputable def elcrit : ℝ := 1 / 2 * vslewel * vslewel / accel

/-- Time to accelerate to full azimuth speed (line 51). -/
noncomputable def aztcrit : ℝ := vslewaz / accel

/-- Time to accelerate to full elevation speed (line 52). -/
noncomputable def eltcrit : ℝ := vslewel / accel

/-- `calcSlewTime` (`plan_schedule.py` lines 41-69): the time in
seconds for the ATCA mount to slew between two az/el positions, each
axis following a trapezoidal velocity profile, axes moving
concurrently. -/
noncomputable def calcSlewTime (oldPosition newPosition : Pos) : ℝ :=
  let deltaAzRadians : ℝ := |newPosition.az - oldPosition.az| * Real.pi / 180
  let deltaElRadians : ℝ := |newPosition.el - oldPosition.el| * Real.pi / 180
  let taz : ℝ :=
    if deltaAzRadians ≤ azcrit then 2 * Real.sqrt (deltaAzRadians / accel)
    else aztcrit + (deltaAzRadians - azcrit) / vslewaz
  let tel : ℝ :=
    if deltaElRadians ≤ elcrit then 2 * Real.sqrt (deltaElRadians / accel)
    else eltcrit + (deltaElRadians - elcrit) / vslewel
  if taz > tel then taz else tel

theorem vslewaz_pos : 0 < vslewaz := by
  unfold vslewaz
  positivity

theorem accel_pos : 0 < accel := by
  unfold accel
  positivity

theorem azcrit_nonneg : 0 ≤ azcrit := by
  unfold azcrit
  have := vslewaz_pos
  have := accel_pos
  positivity

theorem elcrit_nonneg : 0 ≤ elcrit := by
  unfold elcrit vslewel
  have := accel_pos
  have := Real.pi_pos
  positivity

/-- The azimuth critical distance, expressed as a multiple of one
degree in radians: `azcrit = (361/400)·(π/180)`. -/
theorem azcrit_eq : azcrit = 361 / 400 * (Real.pi / 180) := by
  unfold azcrit vslewaz accel
  have hpi := Real.pi_ne_zero
  field_simp
  ring

/-- Slewing from a position to itself takes no time. -/
theorem calcSlewTime_self (p : Pos) : calcSlewTime p p = 0 := by
  simp only [calcSlewTime, sub_self, abs_zero, zero_mul, zero_div]
  rw [if_pos azcrit_nonneg, if_pos elcrit_nonneg, Real.sqrt_zero, mul_zero]
  simp

/-- `calcSlewTime` only looks at per-axis absolute differences, hence
is symmetric in its two arguments. -/
theorem calcSlewTime_symm (p q : Pos) : calcSlewTime p q = calcSlewTime q p := by
  unfold calcSlewTime
  rw [abs_sub_comm q.az p.az, abs_sub_comm q.el p.el]

/-- When the two positions share an elevation and their azimuths are
separated by more than the critical distance (361/400 of a degree),
the slew time is given by the linear (coasting) formula, and the π
factors cancel, leaving a rational value. -/
theorem calcSlewTime_az_linear (p q : Pos) (hel : p.el = q.el)
    (h : 361 / 400 < |q.az - p.az|) :
    calcSlewTime p q = 57 / 20 + (|q.az - p.az| - 361 / 400) * (30 / 19) := by
  have hpi := Real.pi_pos
  have hcond : ¬ (|q.az - p.az| * Real.pi / 180 ≤ azcrit) := by
    rw [azcrit_eq]
    intro hle
    rw [mul_div_assoc] at hle
    have h2 : (361 / 400 : ℝ) * (Real.pi / 180) < |q.az - p.az| * (Real.pi / 180) :=
      mul_lt_mul_of_pos_right h (by positivity)
    linarith
  have haz : aztcrit + (|q.az - p.az| * Real.pi / 180 - azcrit) / vslewaz
      = 57 / 20 + (|q.az - p.az| - 361 / 400) * (30 / 19) := by
    unfold aztcrit azcrit vslewaz accel
    have hpi' := Real.pi_ne_zero
    field_simp
    ring
  simp only [calcSlewTime, hel, sub_self, abs_zero, zero_mul, zero_div]
  rw [if_pos elcrit_nonneg, Real.sqrt_zero, mul_zero, if_neg hcond, haz,
    if_pos (by nlinarith [h])]

/-- C8: `calcSlewTime(a, a) = 0` for every horizontal position `a`,
and `calcSlewTime(a, b) = calcSlewTime(b, a)` for every pair of
horizontal positions: the slew-time function uses only absolute
angular differences per axis, so it is symmetric. -/
theorem calcSlewTime_self_zero_and_symm :
    (∀ a : Pos, calcSlewTime a a = 0) ∧
    (∀ a b : Pos, calcSlewTime a b = calcSlewTime b a) :=
  ⟨calcSlewTime_self, calcSlewTime_symm⟩

/-!  ## The insufficient-duration cull's hysteresis decision (C3)  -/

/-- The up/down decision of the insufficient-duration cull
(`plan_schedule.py` lines 417-418): at a probe instant the source is
treated as *not up* when it was up at the previous probe and
`el < minel * 1.01`, or when it was down at the previous probe and
`el < minel * 0.99`. -/
def secondCullNotUp (lastUp : Bool) (el minel : ℝ) : Prop :=
  (lastUp = true ∧ el < minel * (101 / 100)) ∨
  (lastUp = false ∧ el < minel * (99 / 100))

/-- Modelled from the spec, for comparison with `secondCullNotUp`: the
hysteresis band as the spec states it — a source that was up is still
treated as up until its elevation drops below 99% of the threshold,
and a source that was down is still treated as down until its
elevation rises above 101% of the threshold. -/
def specCullNotUp (lastUp : Bool) (el minel : ℝ) : Prop :=
  (lastUp = true ∧ el < minel * (99 / 100)) ∨
  (lastUp = false ∧ ¬ (minel * (101 / 100) < el))

/-- C3: the code's decision diverges from the claim in both directions
at elevation exactly equal to the threshold (20° with threshold 20°):
a source that was up at the previous probe is treated as *down* (the
code keeps it up only at or above 101% of the threshold, the claim
says at or above 99% suffices), and a source that was down is treated
as *up* (the code lets it rise already at 99%, the claim says it stays
down until above 101%).  The 0.99/1.01 factors of the two branches of
lines 417-418 are swapped relative to the spec's hysteresis band. -/
theorem secondCull_hysteresis_swapped :
    (secondCullNotUp true 20 20 ∧ ¬ specCullNotUp true 20 20) ∧
    (¬ secondCullNotUp false 20 20 ∧ specCullNotUp false 20 20) := by
  norm_num [secondCullNotUp, specCullNotUp]

/-!  ## Window parsing (C6) and the first cull (C7)  -/

/-- The window-bound parsing step (lines 359-364): each bound is
parsed by the external `ephem.Date` (modelled as an `Option ℝ`
oracle result, `none` standing for a `ValueError`); on success the
15-minute calibration margins are applied.  A parse failure aborts
the program (`sys.exit(-1)`), modelled as `Except.error`. -/
noncomputable def parseWindow (startParse stopParse : Option ℝ) : Except Unit (ℝ × ℝ) :=
  match startParse with
  | none => .error ()
  | some s =>
    match stopParse with
    | none => .error ()
    | some e => .ok (s + 15 / (24 * 60), e - 15 / (24 * 60))

/-- One source's fate in the first cull (lines 368-387): a source
below the minimum elevation at window start is marked bad when the
rise oracle reports it never rises (`NeverUpError`, modelled `none`)
or when the next rise instant is at or after `stopDate`. -/
noncomputable def firstCullBad (startElOf : ℕ → ℝ) (riseOf : ℕ → Option ℝ)
    (minel stopDate : ℝ) (s : ℕ) : Bool :=
  if startElOf s < minel then
    match riseOf s with
    | none => true
    | some r => if stopDate ≤ r then true else false
  else false

/-- The first cull over the whole source list (lines 366-395): bad
indices are collected and then removed by the reversed deletion loop,
so the survivors keep their order and the removed sources are
accumulated in reverse order.  Result: (remaining, removed). -/
noncomputable def firstCull (startElOf : ℕ → ℝ) (riseOf : ℕ → Option ℝ)
    (minel stopDate : ℝ) (sources : List ℕ) : List ℕ × List ℕ :=
  (sources.filter (fun s => ! firstCullBad startElOf riseOf minel stopDate s),
   (sources.filter (fun s => firstCullBad startElOf riseOf minel stopDate s)).reverse)

/-- Composition of window parsing with the first planning step (the
first cull): when parsing succeeds the program continues straight into
the cull — there is no check that the window is nonempty. -/
noncomputable def parseThenFirstCull (startParse stopParse : Option ℝ)
    (startElOf : ℕ → ℝ) (riseOf : ℕ → Option ℝ) (minel : ℝ)
    (sources : List ℕ) : Option (List ℕ × List ℕ) :=
  match parseWindow startParse stopParse with
  | .error _ => none
  | .ok (_, stopDate) => some (firstCull startElOf riseOf minel stopDate sources)

/-- C6 counterexample: with both bounds parseable and equal (so the
end instant is at or before the start instant) the program does *not*
abort: parsing succeeds and planning proceeds — the first cull runs
(here removing the catalogue's single never-rising source).  The code
only catches `ValueError` from the date parsing and never compares
the two bounds. -/
theorem parseWindow_no_order_check :
    parseWindow (some 100) (some 100)
      = .ok (100 + 15 / (24 * 60), 100 - 15 / (24 * 60)) ∧
    parseThenFirstCull (some 100) (some 100) (fun _ => 10) (fun _ => none) 20 [0]
      = some ([], [0]) := by
  refine ⟨rfl, ?_⟩
  have hbad : firstCullBad (fun _ => 10) (fun _ => none) 20 (100 - 15 / (24 * 60)) 0
      = true := by
    unfold firstCullBad
    rw [if_pos (by norm_num)]
  simp [parseThenFirstCull, parseWindow, firstCull, hbad]

/-- C6 amended: the program aborts before any planning step exactly
when one of the window bounds fails to parse; a window with end at or
before start is not detected, and planning proceeds on it. -/
theorem parseThenFirstCull_none_iff (startParse stopParse : Option ℝ)
    (startElOf : ℕ → ℝ) (riseOf : ℕ → Option ℝ) (minel : ℝ) (sources : List ℕ) :
    parseThenFirstCull startParse stopParse startElOf riseOf minel sources = none
      ↔ startParse = none ∨ stopParse = none := by
  cases startParse <;> cases stopParse <;>
    simp [parseThenFirstCull, parseWindow]

/-- C7: a source below the elevation threshold at window start whose
only rise instant is 1 minute before the user-given window end `E` is
removed by the first cull: the code compares the rise instant against
`stopDate = E − 15 minutes` (line 361), and `E − 1 min ≥ E − 15 min`. -/
theorem firstCull_removes_late_riser (startElOf : ℕ → ℝ) (riseOf : ℕ → Option ℝ)
    (minel E : ℝ) (sources : List ℕ) (s : ℕ) (hs : s ∈ sources)
    (hlow : startElOf s < minel)
    (hrise : riseOf s = some (E - 1 / (24 * 60))) :
    s ∈ (firstCull startElOf riseOf minel (E - 15 / (24 * 60)) sources).2 := by
  have hbad : firstCullBad startElOf riseOf minel (E - 15 / (24 * 60)) s = true := by
    unfold firstCullBad
    rw [if_pos hlow, hrise]
    show (if E - 15 / (24 * 60) ≤ E - 1 / (24 * 60) then true else false) = true
    rw [if_pos (by linarith)]
  simp [firstCull, List.mem_reverse, List.mem_filter, hs, hbad]

/-- Witness for C7 at a concrete input: source `0` starts at elevation
10° (below the 20° threshold) and rises 1 minute before the window
end `E = 100`; it lands in the removed list. -/
theorem firstCull_removes_late_riser_witness :
    (0 : ℕ) ∈ (firstCull (fun _ => 10) (fun _ => some (100 - 1 / (24 * 60))) 20
      (100 - 15 / (24 * 60)) [0]).2 :=
  firstCull_removes_late_riser (fun _ => 10) (fun _ => some (100 - 1 / (24 * 60)))
    20 100 [0] 0 (by simp) (by norm_num) rfl

/-!  ## `readSourceList` (C10)  -/

/-- Python strings are modelled as lists of characters, so that the
string operations of `readSourceList` (`split`, `strip`) reduce by
computation. -/
abbrev PyStr := List Char

/-- Python `str.split(delim)` for a one-character delimiter:
`split "a,b" ',' = ["a", "b"]`, and the empty string splits into one
empty field. -/
def pySplit (delim : Char) : PyStr → List PyStr
  | [] => [[]]
  | c :: rest =>
    let r := pySplit delim rest
    if c = delim then [] :: r
    else (c :: r.headD []) :: r.tail

/-- Python `str.strip()`: remove leading and trailing whitespace. -/
def pyStrip (s : PyStr) : PyStr :=
  ((s.dropWhile Char.isWhitespace).reverse.dropWhile Char.isWhitespace).reverse

/-- A source record as built by `createSource` (lines 106-116): name,
right ascension and declination strings.  The PyEphem coordinate
parsing that `createSource` triggers can raise, so construction is
modelled as an oracle `mk` returning `Except Unit Src`. -/
structure Src where
  name : PyStr
  rightAscension : PyStr
  declination : PyStr
deriving DecidableEq

/-- One JSON `sources` array element: the three properties, each
possibly absent (lines 149-151 check for their presence). -/
structure JRec where
  name : Option PyStr
  rightAscension : Option PyStr
  declination : Option PyStr

/-- The parsed JSON document: either it lacks the top-level `sources`
property (line 145) or it carries the array of records. -/
inductive JDoc
  | noSources
  | sources (recs : List JRec)

/-- The outcome of opening and reading the source-list file:
`failure` stands for any exception raised while opening or reading
the file or while parsing the JSON (`json.loads`); the other
constructors carry the successfully read content of each format. -/
inductive FileInput
  | failure
  | csv (flines : List PyStr)
  | json (doc : JDoc)

/-- The CSV branch of `readSourceList` (lines 127-140): scan the
(already stripped) lines in order; a line splitting into fewer than
three fields is skipped; on the first line where source construction
raises, the accumulated list is returned (the bare `except` handler
at line 155 falls through to `return sources`). -/
def csvLoop (mk : PyStr → PyStr → PyStr → Except Unit Src) (delimiter : Char) :
    List PyStr → List Src → List Src
  | [], acc => acc
  | line :: rest, acc =>
    let details := (pySplit delimiter line).map pyStrip
    if details.length < 3 then csvLoop mk delimiter rest acc
    else
      match mk (details.getD 0 []) (details.getD 1 []) (details.getD 2 []) with
      | .ok _src => csvLoop mk delimiter rest (acc ++ [_src])
      | .error _ => acc

/-- The JSON branch of `readSourceList` (lines 148-154): records
missing one of the three properties are skipped; a failing source
construction returns the accumulated list, as in the CSV branch. -/
def jsonLoop (mk : PyStr → PyStr → PyStr → Except Unit Src) :
    List JRec → List Src → List Src
  | [], acc => acc
  | r :: rest, acc =>
    match r.name, r.rightAscension, r.declination with
    | some n, some ra, some dec =>
      match mk n ra dec with
      | .ok _src => jsonLoop mk rest (acc ++ [_src])
      | .error _ => acc
    | _, _, _ => jsonLoop mk rest acc

/-- `readSourceList` (lines 118-159).  Opening/reading/JSON-parse
exceptions are collapsed into `FileInput.failure`, which the bare
`except` turns into the accumulated (empty) source list. -/
def readSourceList (mk : PyStr → PyStr → PyStr → Except Unit Src)
    (delimiter : Char) : FileInput → List Src
  | .failure => []
  | .csv flines => csvLoop mk delimiter (flines.map pyStrip) []
  | .json .noSources => []
  | .json (.sources recs) => jsonLoop mk recs []

theorem csvLoop_skip (mk : PyStr → PyStr → PyStr → Except Unit Src)
    (delimiter : Char) (badline : PyStr)
    (hshort : ((pySplit delimiter badline).map pyStrip).length < 3) :
    ∀ pre post acc, csvLoop mk delimiter (pre ++ badline :: post) acc
      = csvLoop mk delimiter (pre ++ post) acc := by
  intro pre
  induction pre with
  | nil =>
    intro post acc
    simp only [List.nil_append, csvLoop, if_pos hshort]
  | cons line rest ih =>
    intro post acc
    simp only [List.cons_append, csvLoop]
    split
    · exact ih post acc
    · split
      · exact ih post _
      · rfl

theorem csvLoop_stop (mk : PyStr → PyStr → PyStr → Except Unit Src)
    (delimiter : Char) (badline : PyStr)
    (hlen : ¬ ((pySplit delimiter badline).map pyStrip).length < 3)
    (herr : mk (((pySplit delimiter badline).map pyStrip).getD 0 [])
      (((pySplit delimiter badline).map pyStrip).getD 1 [])
      (((pySplit delimiter badline).map pyStrip).getD 2 []) = .error ()) :
    ∀ pre post acc, csvLoop mk delimiter (pre ++ badline :: post) acc
      = csvLoop mk delimiter pre acc := by
  intro pre
  induction pre with
  | nil =>
    intro post acc
    simp only [List.nil_append, csvLoop, if_neg hlen, herr]
  | cons line rest ih =>
    intro post acc
    simp only [List.cons_append, csvLoop]
    split
    · exact ih post acc
    · split
      · exact ih post _
      · rfl

/-- C10: `readSourceList` never lets an exception reach its caller and
always returns a list: any open/read failure or malformed JSON yields
`[]`; a JSON document without a `sources` key yields `[]`; a CSV line
with fewer than three fields is skipped without affecting the result;
and a line whose source construction raises ends the scan with exactly
the sources accumulated from the preceding lines. -/
theorem readSourceList_total_behaviour
    (mk : PyStr → PyStr → PyStr → Except Unit Src) (delimiter : Char) :
    readSourceList mk delimiter .failure = [] ∧
    readSourceList mk delimiter (.json .noSources) = [] ∧
    (∀ pre post badline,
      ((pySplit delimiter (pyStrip badline)).map pyStrip).length < 3 →
      readSourceList mk delimiter (.csv (pre ++ badline :: post))
        = readSourceList mk delimiter (.csv (pre ++ post))) ∧
    (∀ pre post badline,
      ¬ ((pySplit delimiter (pyStrip badline)).map pyStrip).length < 3 →
      mk (((pySplit delimiter (pyStrip badline)).map pyStrip).getD 0 [])
        (((pySplit delimiter (pyStrip badline)).map pyStrip).getD 1 [])
        (((pySplit delimiter (pyStrip badline)).map pyStrip).getD 2 [])
        = .error () →
      readSourceList mk delimiter (.csv (pre ++ badline :: post))
        = readSourceList mk delimiter (.csv pre)) := by
  refine ⟨rfl, rfl, ?_, ?_⟩
  · intro pre post badline hshort
    simp only [readSourceList, List.map_append, List.map_cons]
    exact csvLoop_skip mk delimiter (pyStrip badline) hshort
      (pre.map pyStrip) (post.map pyStrip) []
  · intro pre post badline hlen herr
    simp only [readSourceList, List.map_append, List.map_cons]
    exact csvLoop_stop mk delimiter (pyStrip badline) hlen herr
      (pre.map pyStrip) (post.map pyStrip) []

/-- A concrete source constructor for the C10 witness: it raises
exactly on right ascension `"X"`. -/
def mkTest (n ra dec : PyStr) : Except Unit Src :=
  if ra = ['X'] then .error () else .ok ⟨n, ra, dec⟩

/-- Witness for C10 at concrete inputs: a two-field line is skipped,
and a line that makes construction raise stops the scan with the
sources read so far. -/
theorem readSourceList_total_behaviour_witness :
    readSourceList mkTest ',' (.csv (["a,1,2".toList] ++ "bd".toList :: ["c,3,4".toList]))
      = readSourceList mkTest ',' (.csv (["a,1,2".toList] ++ ["c,3,4".toList])) ∧
    readSourceList mkTest ',' (.csv (["a,1,2".toList] ++ "b,X,9".toList :: ["c,3,4".toList]))
      = readSourceList mkTest ',' (.csv ["a,1,2".toList]) := by
  constructor
  · exact (readSourceList_total_behaviour mkTest ',').2.2.1 ["a,1,2".toList]
      ["c,3,4".toList] "bd".toList (by decide)
  · exact (readSourceList_total_behaviour mkTest ',').2.2.2 ["a,1,2".toList]
      ["c,3,4".toList] "b,X,9".toList (by decide) rfl

/-!  ## `findSegmentSources` (C9, C4)  -/

/-- The visit ledger: the Python dictionary `nVisits`/`sourceVisits`
mapping a source name to its running visit count, modelled as a
partial map (the code distinguishes absent keys with `in` tests). -/
abbrev Ledger := ℕ → Option ℕ

/-- Increment a source's ledger entry (lines 239-242): absent ↦ 1,
present `v` ↦ `v + 1`. -/
def ledgerBump (nVisits : Ledger) (s : ℕ) : Ledger :=
  fun t => if t = s then some ((nVisits s).getD 0 + 1) else nVisits t

/-- Line 233's test: `name in nVisits and nVisits[name] >= maxVisits`. -/
def atCap (nVisits : Ledger) (maxVisits : ℕ) (s : ℕ) : Bool :=
  match nVisits s with
  | none => false
  | some v => maxVisits ≤ v

/-- Line 235's test:
`excludeSources is not None and name in excludeSources`.  The
exclusion list is the program's `excludeSources` (line 557), a list of
optional names (`None` entries standing for unseeded segments). -/
def excludedIn (excludeSources : Option (List (Option ℕ))) (s : ℕ) : Bool :=
  match excludeSources with
  | none => false
  | some ex => ex.contains (some s)

/-- The selection loop of `findSegmentSources` (lines 230-242): walk
the candidates in increasing slew order; break for good once the
accumulated slew time (minutes) exceeds `maxSlewTime`; skip sources at
their visit cap or excluded; otherwise select the source, add its slew
minutes, and bump the ledger. -/
noncomputable def selLoop (maxSlewTime : ℝ) (maxVisits : ℕ)
    (excludeSources : Option (List (Option ℕ))) :
    List (ℕ × ℝ) → ℝ → List ℕ → Ledger → List ℕ × Ledger
  | [], _, observeSources, nVisits => (observeSources, nVisits)
  | (s, w) :: rest, totalSlewTime, observeSources, nVisits =>
    if maxSlewTime < totalSlewTime then (observeSources, nVisits)
    else if atCap nVisits maxVisits s then
      selLoop maxSlewTime maxVisits excludeSources rest totalSlewTime
        observeSources nVisits
    else if excludedIn excludeSources s then
      selLoop maxSlewTime maxVisits excludeSources rest totalSlewTime
        observeSources nVisits
    else
      selLoop maxSlewTime maxVisits excludeSources rest (totalSlewTime + w / 60)
        (observeSources ++ [s]) (ledgerBump nVisits s)

/-- `findSegmentSources` (lines 212-244), with all required arguments
present.  Sources are names (ids); positions come from the `pos`
oracle standing for `timeToPosition` with the shared observatory.
Candidates other than the seed and above the elevation limit are
paired with their slew time from the seed, sorted by slew time
(Python's stable `sorted` is modelled by insertion sort; all the
properties proved below are insensitive to the tie order), and fed to
the selection loop.  It returns the chosen companions together with
the updated (in Python, mutated) visit ledger. -/
noncomputable def findSegmentSources (pos : ℕ → ℝ → Pos) (seedSource : ℕ)
    (possibleSources : List ℕ) (maxSlewTime : ℝ) (segmentStartTime : ℝ)
    (nVisits : Ledger) (maxVisits : ℕ) (excludeSources : Option (List (Option ℕ)))
    (lowElLimit : ℝ) : List ℕ × Ledger :=
  let seedPosition := pos seedSource segmentStartTime
  let segmentSlewTimes := possibleSources.filterMap (fun s =>
    if seedSource ≠ s then
      if lowElLimit < (pos s segmentStartTime).el then
        some (s, calcSlewTime seedPosition (pos s segmentStartTime))
      else none
    else none)
  let sortedSlewTimes := List.insertionSort (fun a b => a.2 ≤ b.2) segmentSlewTimes
  selLoop maxSlewTime maxVisits excludeSources sortedSlewTimes 0 [] nVisits

/-- Everything the selection loop outputs was already accumulated or
is the first component of some candidate pair. -/
theorem selLoop_mem (maxSlewTime : ℝ) (maxVisits : ℕ)
    (excludeSources : Option (List (Option ℕ))) :
    ∀ (cands : List (ℕ × ℝ)) (total : ℝ) (acc : List ℕ) (led : Ledger) (x : ℕ),
      x ∈ (selLoop maxSlewTime maxVisits excludeSources cands total acc led).1 →
      x ∈ acc ∨ ∃ w, (x, w) ∈ cands := by
  intro cands
  induction cands with
  | nil =>
    intro total acc led x hx
    exact Or.inl hx
  | cons hd tl ih =>
    intro total acc led x hx
    obtain ⟨s, w⟩ := hd
    rw [selLoop] at hx
    split at hx
    · exact Or.inl hx
    · split at hx
      · rcases ih _ _ _ _ hx with h | ⟨w', h⟩
        · exact Or.inl h
        · exact Or.inr ⟨w', List.mem_cons_of_mem _ h⟩
      · split at hx
        · rcases ih _ _ _ _ hx with h | ⟨w', h⟩
          · exact Or.inl h
          · exact Or.inr ⟨w', List.mem_cons_of_mem _ h⟩
        · rcases ih _ _ _ _ hx with h | ⟨w', h⟩
          · rcases List.mem_append.mp h with h' | h'
            · exact Or.inl h'
            · exact Or.inr ⟨w, by
                rw [List.mem_singleton.mp h']
                exact List.mem_cons_self _ _⟩
          · exact Or.inr ⟨w', List.mem_cons_of_mem _ h⟩

/-- C9: for every call of `findSegmentSources` with all required
arguments present, the returned companion list never contains a
source whose name equals the seed source's name, whatever the
caller-supplied exclusion set is (including `none`): the function
filters the seed out by name when building the candidate list. -/
theorem findSegmentSources_excludes_seed (pos : ℕ → ℝ → Pos) (seedSource : ℕ)
    (possibleSources : List ℕ) (maxSlewTime segmentStartTime : ℝ)
    (nVisits : Ledger) (maxVisits : ℕ) (excludeSources : Option (List (Option ℕ)))
    (lowElLimit : ℝ) (x : ℕ)
    (hx : x ∈ (findSegmentSources pos seedSource possibleSources maxSlewTime
      segmentStartTime nVisits maxVisits excludeSources lowElLimit).1) :
    x ≠ seedSource := by
  unfold findSegmentSources at hx
  rcases selLoop_mem _ _ _ _ _ _ _ _ hx with h | ⟨w, h⟩
  · simp at h
  · rw [List.mem_insertionSort] at h
    obtain ⟨s, _, hs⟩ := List.mem_filterMap.mp h
    by_cases hne : seedSource ≠ s
    · rw [if_pos hne] at hs
      split at hs
      · rw [Option.some.injEq, Prod.mk.injEq] at hs
        intro hxs
        exact hne (hs.1.trans hxs).symm
      · exact absurd hs (by simp)
    · rw [if_neg hne] at hs
      exact absurd hs (by simp)

/-- Witness for C9 at a concrete call: the output companion list is
`[1]`, nonempty, and its member differs from the seed `0`. -/
theorem findSegmentSources_excludes_seed_witness :
    (1 : ℕ) ∈ (findSegmentSources (fun _ _ => ⟨0, 50⟩) 0 [1] 10 0 (fun _ => none)
      1 none 20).1 ∧ (1 : ℕ) ≠ 0 := by
  have hmem : (findSegmentSources (fun _ _ => ⟨0, 50⟩) 0 [1] 10 0 (fun _ => none)
      1 none 20).1 = [1] := by
    norm_num [findSegmentSources, selLoop, atCap, excludedIn,
      List.insertionSort, List.filterMap]
  constructor
  · rw [hmem]
    exact List.mem_singleton.mpr rfl
  · exact findSegmentSources_excludes_seed (fun _ _ => ⟨0, 50⟩) 0 [1] 10 0
      (fun _ => none) 1 none 20 1 (by rw [hmem]; exact List.mem_singleton.mpr rfl)

/-!  ## Segment constants and the capacity limit (C4)  -/

/-- `fullDuration` (line 401): the per-visit duration plus twice the
correlator cycle time (seconds) converted to minutes. -/
noncomputable def fullDuration (duration cycletime : ℝ) : ℝ :=
  duration + 2 * cycletime / 60

/-- `halfSpacing` (line 455): half the minimum revisit spacing, in days. -/
noncomputable def halfSpacing (spacing : ℝ) : ℝ := spacing / 2 / (24 * 60)

/-- `integrationPerSegment` (line 552): minutes available for
integration in a segment — 85% of the segment width. -/
noncomputable def integrationPerSegment (hs : ℝ) : ℝ := 85 / 100 * hs * (60 * 24)

/-- The per-segment slew budget `maxSlewTime` (line 553): 15% of the
segment width, in minutes. -/
noncomputable def maxSlewTimeBudget (hs : ℝ) : ℝ := 15 / 100 * hs * (60 * 24)

/-- `nSourcesPerSegment` (line 554): the capacity limit
`int(floor(integrationPerSegment / fullDuration))`.  The code computes
this value and never uses it again. -/
noncomputable def nSourcesPerSegment (hs fd : ℝ) : ℤ :=
  ⌊integrationPerSegment hs / fd⌋

/-- With a constant position oracle at `p`, the candidate pair list of
`findSegmentSources` degenerates to every non-seed candidate paired
with slew time zero. -/
theorem slewPairs_all_zero (p : Pos) (seedSource : ℕ) (lowElLimit t : ℝ)
    (hel : lowElLimit < p.el) :
    ∀ l : List ℕ, seedSource ∉ l →
      (l.filterMap (fun s =>
        if seedSource ≠ s then
          if lowElLimit < ((fun (_ : ℕ) (_ : ℝ) => p) s t).el then
            some (s, calcSlewTime ((fun (_ : ℕ) (_ : ℝ) => p) seedSource t)
              ((fun (_ : ℕ) (_ : ℝ) => p) s t))
          else none
        else none)) = l.map (fun s => (s, (0 : ℝ))) := by
  intro l
  induction l with
  | nil => intro _; rfl
  | cons a l ih =>
    intro hseed
    rw [List.mem_cons, not_or] at hseed
    rw [List.filterMap_cons, if_pos hseed.1, if_pos hel,
      calcSlewTime_self, ih hseed.2, List.map_cons]

/-- Insertion sort leaves a list whose sort keys are all zero
unchanged. -/
theorem insertionSort_zero_keys :
    ∀ l : List ℕ,
      List.insertionSort (fun a b : ℕ × ℝ => a.2 ≤ b.2) (l.map (fun s => (s, (0 : ℝ))))
        = l.map (fun s => (s, (0 : ℝ))) := by
  intro l
  induction l with
  | nil => rfl
  | cons a l ih =>
    rw [List.map_cons, List.insertionSort, ih]
    cases l with
    | nil => rfl
    | cons b t =>
      rw [List.map_cons, List.orderedInsert, if_pos le_rfl]

/-- When every candidate has zero slew, a fresh ledger entry, and is
not excluded, the selection loop selects all of them: nothing in
`findSegmentSources` limits how many companions are taken. -/
theorem selLoop_selects_all (maxSlewTime : ℝ) (maxVisits : ℕ)
    (excludeSources : Option (List (Option ℕ))) :
    ∀ (l : List ℕ) (total : ℝ) (acc : List ℕ) (led : Ledger),
      l.Nodup → (∀ s ∈ l, led s = none) →
      (∀ s ∈ l, excludedIn excludeSources s = false) →
      total ≤ maxSlewTime →
      (selLoop maxSlewTime maxVisits excludeSources
        (l.map (fun s => (s, (0 : ℝ)))) total acc led).1 = acc ++ l := by
  intro l
  induction l with
  | nil =>
    intro total acc led _ _ _ _
    simp [selLoop]
  | cons s t ih =>
    intro total acc led hnd hled hex htot
    rw [List.map_cons, selLoop, if_neg (not_lt.mpr htot)]
    rw [show atCap led maxVisits s = false by
      unfold atCap
      rw [hled s (List.mem_cons_self s t)]]
    rw [hex s (List.mem_cons_self s t)]
    show (selLoop maxSlewTime maxVisits excludeSources
      (t.map (fun s => (s, (0 : ℝ)))) (total + 0 / 60) (acc ++ [s])
      (ledgerBump led s)).1 = acc ++ s :: t
    rw [zero_div, add_zero]
    rw [ih total (acc ++ [s]) (ledgerBump led s) (List.nodup_cons.mp hnd).2
      (fun x hx => by
        unfold ledgerBump
        rw [if_neg (fun hxs : x = s => (List.nodup_cons.mp hnd).1 (hxs ▸ hx))]
        exact hled x (List.mem_cons_of_mem s hx))
      (fun x hx => hex x (List.mem_cons_of_mem s hx)) htot]
    simp

/-- C4 counterexample: with a 30-minute spacing (segment width 15 min)
and a 5-minute per-visit duration the capacity limit of the claim is
`floor(12.75 / 5) = 2`, yet a call on five candidates that all sit at
the seed's position (zero slew) returns all five companions.  The
limit `nSourcesPerSegment` is computed by the code (line 554) but the
selection loop never consults it. -/
theorem findSegmentSources_exceeds_capacity :
    nSourcesPerSegment (halfSpacing 30) (fullDuration 4 30) = 2 ∧
    (findSegmentSources (fun _ _ => ⟨0, 50⟩) 0 [1, 2, 3, 4, 5]
      (maxSlewTimeBudget (halfSpacing 30)) 0 (fun _ => none) 4
      (some [some 0]) 20).1 = [1, 2, 3, 4, 5] := by
  constructor
  · have h1 : integrationPerSegment (halfSpacing 30) / fullDuration 4 30
        = 51 / 20 := by
      norm_num [integrationPerSegment, halfSpacing, fullDuration]
    rw [nSourcesPerSegment, h1, Int.floor_eq_iff]
    norm_num
  · simp only [findSegmentSources]
    rw [slewPairs_all_zero ⟨0, 50⟩ 0 20 0 (by norm_num) [1, 2, 3, 4, 5] (by decide),
      insertionSort_zero_keys]
    rw [selLoop_selects_all (maxSlewTimeBudget (halfSpacing 30)) 4 (some [some 0])
      [1, 2, 3, 4, 5] 0 [] (fun _ => none) (by decide) (fun _ _ => rfl)
      (by decide) (by norm_num [maxSlewTimeBudget, halfSpacing])]
    rfl

/-- C4 amended: companion selection stops only when the cumulative
slew time exceeds the slew budget — the capacity limit is never
enforced — so when every candidate sits at the seed's position (zero
slew), passes the elevation test, is unvisited and not excluded,
*every* candidate is returned, no matter how many there are. -/
theorem findSegmentSources_no_capacity_limit (p : Pos) (seedSource : ℕ)
    (possibleSources : List ℕ) (maxSlewTime t lowElLimit : ℝ) (maxVisits : ℕ)
    (hN : possibleSources.Nodup) (hseed : seedSource ∉ possibleSources)
    (hel : lowElLimit < p.el) (hms : 0 ≤ maxSlewTime) :
    (findSegmentSources (fun _ _ => p) seedSource possibleSources maxSlewTime t
      (fun _ => none) maxVisits none lowElLimit).1 = possibleSources := by
  simp only [findSegmentSources]
  rw [slewPairs_all_zero p seedSource lowElLimit t hel possibleSources hseed,
    insertionSort_zero_keys]
  rw [selLoop_selects_all maxSlewTime maxVisits none possibleSources 0 []
    (fun _ => none) hN (fun _ _ => rfl) (fun _ _ => rfl) hms]
  rfl

/-- Witness for the amended C4 at a concrete call: all three
candidates are returned. -/
theorem findSegmentSources_no_capacity_limit_witness :
    (findSegmentSources (fun _ _ => ⟨0, 50⟩) 0 [1, 2, 3] 0 0 (fun _ => none)
      1 none 20).1 = [1, 2, 3] :=
  findSegmentSources_no_capacity_limit ⟨0, 50⟩ 0 [1, 2, 3] 0 0 20 1 (by decide)
    (by decide) (by norm_num) le_rfl

/-!  ## The seed-selection loop (C1)

Sources are names (ids); `segT i` is `segmentTimes[i]` and
`segmentSources i` is the visible-source list of segment `i`, both
taken as inputs (they are produced by the segmenter, lines 454-481;
for the full pipeline of C2 they are computed from the oracles). -/

/-- The first key attaining the minimal value in the `segmentsUp`
association list — Python's `min(segmentsUp, key=segmentsUp.get)`
(line 485), the dictionary's arbitrary iteration order being fixed to
list order; `min` keeps the earliest entry on ties. -/
def minEntry : List (ℕ × ℕ) → Option (ℕ × ℕ)
  | [] => none
  | kv :: rest =>
    match minEntry rest with
    | none => some kv
    | some kv' => if kv'.2 < kv.2 then some kv' else some kv

/-- Lines 497-506: scan the already-seeded segments and report whether
the candidate seed is within the minimum seed separation (`slewing`
minutes) of any existing seed, both positions evaluated at the seeded
segment's start instant; the scan breaks at the first failure.  The
accumulator `i` tracks the index into `segmentSeeds`. -/
noncomputable def seedCheckFail (pos : ℕ → ℝ → Pos) (segT : ℕ → ℝ) (slewing : ℝ)
    (seedSource : ℕ) : List (Option ℕ) → ℕ → Bool
  | [], _ => false
  | none :: rest, i => seedCheckFail pos segT slewing seedSource rest (i + 1)
  | some r :: rest, i =>
    if calcSlewTime (pos r (segT i)) (pos seedSource (segT i)) / 60 < slewing then
      true
    else seedCheckFail pos segT slewing seedSource rest (i + 1)

/-- Lines 518-524: the candidate may not seed segment `i` when the
previous segment is already seeded and its seed is more than
`adjacent` slew minutes away. -/
noncomputable def adjacentPrevBlocked (pos : ℕ → ℝ → Pos) (segT : ℕ → ℝ)
    (adjacent : ℝ) (seeds : List (Option ℕ)) (seedSource : ℕ) (i : ℕ) : Bool :=
  if 0 < i then
    match seeds.getD (i - 1) none with
    | none => false
    | some r =>
      if adjacent < calcSlewTime (pos r (segT (i - 1))) (pos seedSource (segT i)) / 60
      then true else false
  else false

/-- Lines 525-530: the same test against the following segment's seed. -/
noncomputable def adjacentNextBlocked (pos : ℕ → ℝ → Pos) (segT : ℕ → ℝ)
    (adjacent : ℝ) (seeds : List (Option ℕ)) (seedSource : ℕ) (nSeg i : ℕ) : Bool :=
  if i + 1 < nSeg then
    match seeds.getD (i + 1) none with
    | none => false
    | some r =>
      if adjacent < calcSlewTime (pos r (segT (i + 1))) (pos seedSource (segT i)) / 60
      then true else false
  else false

/-- One step of the `psegments` accumulation (lines 512-531) at
segment `i`: the segment is acceptable when the candidate is visible
there, the segment is unseeded, it is at least 2 segments after the
previously accepted one, and neither adjacent seed is too far away. -/
noncomputable def psegmentsStep (pos : ℕ → ℝ → Pos) (segT : ℕ → ℝ) (adjacent : ℝ)
    (segmentSources : ℕ → List ℕ) (seeds : List (Option ℕ)) (seedSource : ℕ)
    (nSeg : ℕ) (acc : List ℕ) (i : ℕ) : List ℕ :=
  if seedSource ∈ segmentSources i then
    if seeds.getD i none = none then
      if acc ≠ [] ∧ i - acc.getLastD 0 < 2 then acc
      else if adjacentPrevBlocked pos segT adjacent seeds seedSource i then acc
      else if adjacentNextBlocked pos segT adjacent seeds seedSource nSeg i then acc
      else acc ++ [i]
    else acc
  else acc

/-- The full `psegments` list for a candidate seed. -/
noncomputable def psegmentsOf (pos : ℕ → ℝ → Pos) (segT : ℕ → ℝ) (adjacent : ℝ)
    (segmentSources : ℕ → List ℕ) (seeds : List (Option ℕ)) (seedSource : ℕ)
    (nSeg : ℕ) : List ℕ :=
  (List.range nSeg).foldl
    (psegmentsStep pos segT adjacent segmentSources seeds seedSource nSeg) []

/-- Lines 534-536: assign the candidate as the seed of the listed
segments. -/
def assignSeeds (seeds : List (Option ℕ)) (seedSource : ℕ) : List ℕ → List (Option ℕ)
  | [] => seeds
  | i :: rest => assignSeeds (seeds.set i (some seedSource)) seedSource rest

/-- One round of the seed-selection loop for the chosen candidate
`seedSourceName` (lines 487-537): drop the candidate if its name is
not found in the source list, drop it if it is too close to an
existing seed, otherwise compute its acceptable segments and seed the
first `nvisits` of them if there are at least `nvisits`; in every
case the candidate's key is deleted from `segmentsUp` and the loop
continues via `recurse`. -/
noncomputable def seedRound (pos : ℕ → ℝ → Pos) (segT : ℕ → ℝ)
    (slewing adjacent : ℝ) (nvisits : ℕ) (segmentSources : ℕ → List ℕ)
    (nSeg : ℕ) (sourceList : List ℕ)
    (recurse : List (ℕ × ℕ) → List (Option ℕ) → List (Option ℕ))
    (segmentsUp : List (ℕ × ℕ)) (seeds : List (Option ℕ))
    (seedSourceName : ℕ) : List (Option ℕ) :=
  if seedSourceName ∈ sourceList then
    if seedCheckFail pos segT slewing seedSourceName seeds 0 then
      recurse (segmentsUp.filter (fun kv => kv.1 ≠ seedSourceName)) seeds
    else if nvisits ≤ (psegmentsOf pos segT adjacent segmentSources seeds
        seedSourceName nSeg).length then
      recurse (segmentsUp.filter (fun kv => kv.1 ≠ seedSourceName))
        (assignSeeds seeds seedSourceName
          ((psegmentsOf pos segT adjacent segmentSources seeds
            seedSourceName nSeg).take nvisits))
    else
      recurse (segmentsUp.filter (fun kv => kv.1 ≠ seedSourceName)) seeds
  else
    recurse (segmentsUp.filter (fun kv => kv.1 ≠ seedSourceName)) seeds

/-- The seed-selection `while` loop (lines 483-537) with explicit
fuel.  Each iteration deletes the chosen candidate's key from
`segmentsUp`, so fuel exceeding the candidate count is enough;
`runSeedLoop` below supplies it. -/
noncomputable def seedLoop (pos : ℕ → ℝ → Pos) (segT : ℕ → ℝ)
    (slewing adjacent : ℝ) (nvisits : ℕ) (segmentSources : ℕ → List ℕ)
    (nSeg : ℕ) (sourceList : List ℕ) :
    ℕ → List (ℕ × ℕ) → List (Option ℕ) → List (Option ℕ)
  | 0, _, seeds => seeds
  | fuel + 1, segmentsUp, seeds =>
    if none ∈ seeds then
      match minEntry segmentsUp with
      | none => seeds
      | some (seedSourceName, _) =>
        seedRound pos segT slewing adjacent nvisits segmentSources nSeg
          sourceList
          (seedLoop pos segT slewing adjacent nvisits segmentSources nSeg
            sourceList fuel)
          segmentsUp seeds seedSourceName
    else seeds

/-- The seed-selection loop as the program runs it: seeds start all
`None` (line 480) and the fuel covers every possible round. -/
noncomputable def runSeedLoop (pos : ℕ → ℝ → Pos) (segT : ℕ → ℝ)
    (slewing adjacent : ℝ) (nvisits : ℕ) (segmentSources : ℕ → List ℕ)
    (nSeg : ℕ) (sourceList : List ℕ) (segmentsUp : List (ℕ × ℕ)) :
    List (Option ℕ) :=
  seedLoop pos segT slewing adjacent nvisits segmentSources nSeg sourceList
    (segmentsUp.length + 1) segmentsUp (List.replicate nSeg none)

theorem getD_replicate_none (n i : ℕ) :
    (List.replicate n (none : Option ℕ)).getD i none = none := by
  induction n generalizing i with
  | zero => rfl
  | succ n ih =>
    cases i with
    | zero => rfl
    | succ i => exact ih i

/-- The separation property maintained by the seed loop: any two
segments holding *distinct* seed sources were compared when the later
of the two was a candidate, at the earlier one's segment instant, so
at one of the two segments' instants the pair is at least `slewing`
apart. -/
def SeedsSeparated (pos : ℕ → ℝ → Pos) (segT : ℕ → ℝ) (slewing : ℝ)
    (seeds : List (Option ℕ)) : Prop :=
  ∀ i j r s, seeds.getD i none = some r → seeds.getD j none = some s → r ≠ s →
    slewing ≤ calcSlewTime (pos r (segT i)) (pos s (segT i)) / 60 ∨
    slewing ≤ calcSlewTime (pos r (segT j)) (pos s (segT j)) / 60

/-- A passed seed-separation check bounds the candidate against every
existing seed at that seed's segment instant. -/
theorem seedCheckFail_false (pos : ℕ → ℝ → Pos) (segT : ℕ → ℝ) (slewing : ℝ)
    (c : ℕ) :
    ∀ (l : List (Option ℕ)) (k : ℕ),
      seedCheckFail pos segT slewing c l k = false →
      ∀ (m r : ℕ), l.getD m none = some r →
        slewing ≤ calcSlewTime (pos r (segT (k + m))) (pos c (segT (k + m))) / 60 := by
  intro l
  induction l with
  | nil =>
    intro k _ m r hm
    simp [List.getD] at hm
  | cons o rest ih =>
    intro k hfail m r hm
    cases o with
    | none =>
      cases m with
      | zero => simp [List.getD] at hm
      | succ m =>
        rw [seedCheckFail] at hfail
        have h := ih (k + 1) hfail m r hm
        rwa [show k + 1 + m = k + (m + 1) by omega] at h
    | some r' =>
      rw [seedCheckFail] at hfail
      split at hfail
      · exact absurd hfail (by simp)
      · cases m with
        | zero =>
          have hr : r' = r := by simpa [List.getD] using hm
          rw [Nat.add_zero]
          subst hr
          exact le_of_not_lt (by assumption)
        | succ m =>
          have h := ih (k + 1) hfail m r hm
          rwa [show k + 1 + m = k + (m + 1) by omega] at h

theorem getD_set_cases (c : Option ℕ) :
    ∀ (l : List (Option ℕ)) (a i : ℕ),
      (l.set a c).getD i none = c ∨ (l.set a c).getD i none = l.getD i none := by
  intro l
  induction l with
  | nil => intro a i; right; rfl
  | cons x t ih =>
    intro a i
    cases a with
    | zero =>
      cases i with
      | zero => left; rfl
      | succ i => right; rfl
    | succ a =>
      cases i with
      | zero => right; rfl
      | succ i => exact ih a i

/-- Whatever `assignSeeds` leaves in a slot is either the old seed or
the newly assigned candidate. -/
theorem assignSeeds_getD (c : ℕ) :
    ∀ (idxs : List ℕ) (seeds : List (Option ℕ)) (i r : ℕ),
      (assignSeeds seeds c idxs).getD i none = some r →
      seeds.getD i none = some r ∨ r = c := by
  intro idxs
  induction idxs with
  | nil => intro seeds i r h; exact Or.inl h
  | cons a rest ih =>
    intro seeds i r h
    rcases ih (seeds.set a (some c)) i r h with h' | h'
    · rcases getD_set_cases (some c) seeds a i with h2 | h2
      · right
        exact Option.some.inj (h'.symm.trans h2)
      · left
        rw [← h2]
        exact h'
    · exact Or.inr h'

theorem seedsSeparated_assign (pos : ℕ → ℝ → Pos) (segT : ℕ → ℝ) (slewing : ℝ)
    (seeds : List (Option ℕ)) (c : ℕ) (idxs : List ℕ)
    (hInv : SeedsSeparated pos segT slewing seeds)
    (hchk : ∀ i r, seeds.getD i none = some r →
      slewing ≤ calcSlewTime (pos r (segT i)) (pos c (segT i)) / 60) :
    SeedsSeparated pos segT slewing (assignSeeds seeds c idxs) := by
  intro i j r s hi hj hrs
  rcases assignSeeds_getD c idxs seeds i r hi with hi' | hrc
  · rcases assignSeeds_getD c idxs seeds j s hj with hj' | hsc
    · exact hInv i j r s hi' hj' hrs
    · left
      rw [hsc]
      exact hchk i r hi'
  · rcases assignSeeds_getD c idxs seeds j s hj with hj' | hsc
    · right
      rw [hrc, calcSlewTime_symm]
      exact hchk j s hj'
    · exact absurd (hrc.trans hsc.symm) hrs

/-- The seed loop preserves the pairwise separation property. -/
theorem seedLoop_separated (pos : ℕ → ℝ → Pos) (segT : ℕ → ℝ)
    (slewing adjacent : ℝ) (nvisits : ℕ) (segmentSources : ℕ → List ℕ)
    (nSeg : ℕ) (sourceList : List ℕ) :
    ∀ (fuel : ℕ) (segmentsUp : List (ℕ × ℕ)) (seeds : List (Option ℕ)),
      SeedsSeparated pos segT slewing seeds →
      SeedsSeparated pos segT slewing
        (seedLoop pos segT slewing adjacent nvisits segmentSources nSeg
          sourceList fuel segmentsUp seeds) := by
  intro fuel
  induction fuel with
  | zero => intro su seeds h; exact h
  | succ fuel ih =>
    intro su seeds h
    rw [seedLoop]
    by_cases hn : none ∈ seeds
    · rw [if_pos hn]
      cases hmin : minEntry su with
      | none => exact h
      | some kv =>
        obtain ⟨c, v⟩ := kv
        show SeedsSeparated pos segT slewing
          (seedRound pos segT slewing adjacent nvisits segmentSources nSeg
            sourceList
            (seedLoop pos segT slewing adjacent nvisits segmentSources nSeg
              sourceList fuel) su seeds c)
        rw [seedRound]
        by_cases hsrc : c ∈ sourceList
        · rw [if_pos hsrc]
          by_cases hchk : seedCheckFail pos segT slewing c seeds 0 = true
          · rw [if_pos hchk]
            exact ih _ _ h
          · rw [if_neg hchk]
            rw [Bool.not_eq_true] at hchk
            by_cases hlen : nvisits ≤ (psegmentsOf pos segT adjacent
                segmentSources seeds c nSeg).length
            · rw [if_pos hlen]
              refine ih _ _ (seedsSeparated_assign pos segT slewing seeds c _ h ?_)
              intro i r hi
              have hle := seedCheckFail_false pos segT slewing c seeds 0 hchk i r hi
              rwa [Nat.zero_add] at hle
            · rw [if_neg hlen]
              exact ih _ _ h
        · rw [if_neg hsrc]
          exact ih _ _ h
    · rw [if_neg hn]
      exact h

/-- C1 amended: any two segments that the seed-selection loop seeds
with *distinct* sources are separated: at the start instant of at
least one of the two segments, the slew time between the two seeds'
positions (both evaluated at that same instant) is at least the
configured minimum seed separation.  Pairs of segments seeded by the
same source are exempt — the loop never compares a candidate against
its own assignments. -/
theorem seedLoop_distinct_seeds_separated (pos : ℕ → ℝ → Pos) (segT : ℕ → ℝ)
    (slewing adjacent : ℝ) (nvisits : ℕ) (segmentSources : ℕ → List ℕ)
    (nSeg : ℕ) (sourceList : List ℕ) (segmentsUp : List (ℕ × ℕ)) (i j r s : ℕ)
    (hi : (runSeedLoop pos segT slewing adjacent nvisits segmentSources nSeg
      sourceList segmentsUp).getD i none = some r)
    (hj : (runSeedLoop pos segT slewing adjacent nvisits segmentSources nSeg
      sourceList segmentsUp).getD j none = some s)
    (hrs : r ≠ s) :
    slewing ≤ calcSlewTime (pos r (segT i)) (pos s (segT i)) / 60 ∨
    slewing ≤ calcSlewTime (pos r (segT j)) (pos s (segT j)) / 60 := by
  have h0 : SeedsSeparated pos segT slewing (List.replicate nSeg none) := by
    intro i' j' r' s' hi' _ _
    rw [getD_replicate_none] at hi'
    exact absurd hi' (by simp)
  exact seedLoop_separated pos segT slewing adjacent nvisits segmentSources nSeg
    sourceList (segmentsUp.length + 1) segmentsUp _ h0 i j r s hi hj hrs

/-- Constant position oracle for the C1 counterexample: every source
sits at azimuth 0°, elevation 50°, at every instant. -/
noncomputable def posConst : ℕ → ℝ → Pos := fun _ _ => ⟨0, 50⟩

/-- Segment instants for the small scenarios: segment `i` starts at
instant `i`. -/
noncomputable def segTid : ℕ → ℝ := fun i => (i : ℝ)

/-- C1 counterexample: one always-visible source with a constant
position, three segments, `nvisits = 2`, minimum seed separation 1
minute.  The loop seeds segments 0 and 2 with the *same* source, and
the slew time between the seed's positions at the two segments'
instants is 0, below the configured minimum — the claimed bound fails
for pairs of segments seeded by the same source, which the loop never
checks against each other. -/
theorem seedLoop_same_seed_too_close :
    runSeedLoop posConst segTid 1 4 2 (fun _ => [0]) 3 [0] [(0, 3)]
      = [some 0, none, some 0] ∧
    ¬ (1 ≤ calcSlewTime (posConst 0 (segTid 0)) (posConst 0 (segTid 2)) / 60) := by
  constructor
  · decide
  · rw [show posConst 0 (segTid 0) = ⟨0, 50⟩ from rfl,
      show posConst 0 (segTid 2) = ⟨0, 50⟩ from rfl, calcSlewTime_self]
    norm_num

/-- Position oracle for the C1 witness: source 0 sits at azimuth 0°,
every other source at azimuth 90°, all at elevation 50°. -/
noncomputable def posW : ℕ → ℝ → Pos :=
  fun s _ => if s = 0 then ⟨0, 50⟩ else ⟨90, 50⟩

/-- Visible sources per segment for the C1 witness: source 0 in
segment 0, source 1 elsewhere. -/
def segSrcW : ℕ → List ℕ := fun i => if i = 0 then [0] else [1]

/-- The 90°-azimuth slew evaluates to the rational 109083/760 seconds
(≈ 143.5 s). -/
theorem slew_0_90 : calcSlewTime ⟨0, 50⟩ ⟨90, 50⟩ = 109083 / 760 := by
  have habs : |(90 : ℝ) - 0| = 90 := by
    rw [sub_zero]
    rw [abs_of_nonneg]
    norm_num
  rw [calcSlewTime_az_linear ⟨0, 50⟩ ⟨90, 50⟩ rfl (by rw [habs]; norm_num), habs]
  norm_num

theorem seedCheck_0_90_ok :
    ¬ (calcSlewTime (posW 0 (segTid 0)) (posW 1 (segTid 0)) / 60 < 1) := by
  have h1 : posW 0 (segTid 0) = ⟨0, 50⟩ := rfl
  have h2 : posW 1 (segTid 0) = ⟨90, 50⟩ := rfl
  rw [h1, h2, slew_0_90]
  norm_num

theorem adjacency_0_90_ok :
    ¬ ((4 : ℝ) < calcSlewTime (posW 0 (segTid 0)) (posW 1 (segTid 1)) / 60) := by
  have h1 : posW 0 (segTid 0) = ⟨0, 50⟩ := rfl
  have h2 : posW 1 (segTid 1) = ⟨90, 50⟩ := rfl
  rw [h1, h2, slew_0_90]
  norm_num

theorem seedCheckFail_witness_run :
    seedCheckFail posW segTid 1 1 [some 0, none] 0 = false := by
  rw [seedCheckFail, if_neg seedCheck_0_90_ok]
  rfl

theorem adjacentPrev_witness_run :
    adjacentPrevBlocked posW segTid 4 [some 0, none] 1 1 = false := by
  rw [adjacentPrevBlocked, if_pos (by norm_num)]
  show (if (4 : ℝ) < calcSlewTime (posW 0 (segTid 0)) (posW 1 (segTid 1)) / 60
    then true else false) = false
  rw [if_neg adjacency_0_90_ok]

theorem psegments_witness_run :
    psegmentsOf posW segTid 4 segSrcW [some 0, none] 1 2 = [1] := by
  rw [psegmentsOf]
  rw [show List.range 2 = [0, 1] from rfl, List.foldl_cons, List.foldl_cons,
    List.foldl_nil]
  rw [show psegmentsStep posW segTid 4 segSrcW [some 0, none] 1 2 [] 0 = []
    from rfl]
  rw [psegmentsStep, if_pos (by decide), if_pos (by decide), if_neg (by decide),
    adjacentPrev_witness_run]
  show (if adjacentNextBlocked posW segTid 4 [some 0, none] 1 2 1 = true
    then [] else [] ++ [1]) = [1]
  rw [show adjacentNextBlocked posW segTid 4 [some 0, none] 1 2 1 = false
    from rfl]
  rfl

theorem runSeedLoop_witness_run :
    runSeedLoop posW segTid 1 4 1 segSrcW 2 [0, 1] [(0, 1), (1, 1)]
      = [some 0, some 1] := by
  have s1 : runSeedLoop posW segTid 1 4 1 segSrcW 2 [0, 1] [(0, 1), (1, 1)]
      = seedLoop posW segTid 1 4 1 segSrcW 2 [0, 1] 2 [(1, 1)] [some 0, none] := rfl
  rw [s1, seedLoop]
  rw [if_pos (by decide)]
  show seedRound posW segTid 1 4 1 segSrcW 2 [0, 1]
    (seedLoop posW segTid 1 4 1 segSrcW 2 [0, 1] 1) [(1, 1)] [some 0, none] 1
    = [some 0, some 1]
  rw [seedRound, if_pos (by decide), seedCheckFail_witness_run]
  show (if 1 ≤ (psegmentsOf posW segTid 4 segSrcW [some 0, none] 1 2).length then
      seedLoop posW segTid 1 4 1 segSrcW 2 [0, 1] 1
        (List.filter (fun kv => kv.1 ≠ 1) [(1, 1)])
        (assignSeeds [some 0, none] 1
          ((psegmentsOf posW segTid 4 segSrcW [some 0, none] 1 2).take 1))
    else
      seedLoop posW segTid 1 4 1 segSrcW 2 [0, 1] 1
        (List.filter (fun kv => kv.1 ≠ 1) [(1, 1)]) [some 0, none])
    = [some 0, some 1]
  rw [psegments_witness_run]
  rw [if_pos (by decide)]
  rfl

/-- Witness for the amended C1: a run with two sources at azimuths 0°
and 90° seeds segment 0 with source 0 and segment 1 with source 1;
the theorem yields the separation disjunction for the pair, and
indeed the 90° slew takes ≈ 2.39 min ≥ 1 min. -/
theorem seedLoop_distinct_seeds_separated_witness :
    1 ≤ calcSlewTime (posW 0 (segTid 0)) (posW 1 (segTid 0)) / 60 ∨
    1 ≤ calcSlewTime (posW 0 (segTid 1)) (posW 1 (segTid 1)) / 60 :=
  seedLoop_distinct_seeds_separated posW segTid 1 4 1 segSrcW 2 [0, 1]
    [(0, 1), (1, 1)] 0 1 0 1
    (by rw [runSeedLoop_witness_run]; rfl)
    (by rw [runSeedLoop_witness_run]; rfl) (by decide)

/-!  ## The refinement pass (C5) and the full pipeline (C2)

One pass of the refinement `while` loop (lines 558-644) is modelled in
two folds, exactly as in the code: first the per-segment companion
selection and sequencing (lines 564-608), then the slop computation
over segment boundaries (lines 610-644).  The external `atmos`
sequencer (wrapped by `prepareMosaic`, lines 246-288) is an oracle
returning the achieved LST span (already through `lstToSeconds`) and
the visiting order; `lstT` maps an LST to the observatory instant that
`lstToObservatory` (lines 81-104) steers the shared clock to. -/

/-- The digested result of the external mosaic sequencer for one
segment: achieved start/end LST (seconds) and the ordered visiting
sequence (source names, seed included). -/
structure MosRes where
  startLST : ℝ
  endLST : ℝ
  ordered : List ℕ

/-- The sequencer oracle: segment index, previous segment's last
source (the `refpos`, line 591), seed, companions. -/
abbrev Seq := ℕ → Option ℕ → ℕ → List ℕ → MosRes

/-- The state threaded through the companion-selection fold of one
pass (lines 559-563): per-segment ordered sequences and estimates,
the seed-association pool, the shared visit ledger and the last
visited source.  `companions` records each segment's
`sourcesInSegment` list (the value the code holds in a local variable
and files into the association pool). -/
structure SegAcc where
  segmentOrdered : List (List ℕ)
  segmentEstimates : List (Option MosRes)
  companions : List (List ℕ)
  seedAssociations : ℕ → Option (List ℕ)
  sourceVisits : Ledger
  lastSource : Option ℕ

/-- The candidate pool for a seeded segment (lines 573-586): the
seed's stored association when the seed was used before in this pass,
else the segment's visible-source list. -/
noncomputable def segPool (st : SegAcc) (segmentSources : ℕ → List ℕ)
    (sd i : ℕ) : List ℕ :=
  match st.seedAssociations sd with
  | some pool => pool
  | none => segmentSources i

/-- The `findSegmentSources` call a seeded segment makes (lines
574-586), with the segment's grown slew budget. -/
noncomputable def segSel (pos : ℕ → ℝ → Pos) (segT : ℕ → ℝ)
    (segmentSources : ℕ → List ℕ) (maxSlewTime : ℝ) (extraSlewTime : List ℝ)
    (maxVisits : ℕ) (excludeSources : List (Option ℕ)) (lowElLimit : ℝ)
    (st : SegAcc) (sd i : ℕ) : List ℕ × Ledger :=
  findSegmentSources pos sd (segPool st segmentSources sd i)
    (maxSlewTime + extraSlewTime.getD i 0) (segT i) st.sourceVisits maxVisits
    (some excludeSources) lowElLimit

/-- One segment of the companion-selection fold (lines 564-608).  An
unseeded segment contributes an empty sequence and no estimate (lines
567-570).  For a seeded segment the candidate pool is the seed's
stored association when the seed was used before, else the segment's
visible-source list (lines 573-587); the Python dictionary holds the
pool under the seed object and marks reuse under the seed's name —
the two key families stay aligned, and the name-keyed value (line
601) is never read, so both are merged into one map here.  The
sequencer's ordered result is recorded, and its last source becomes
the next `refpos` (line 603; the sequencer contract makes the order
nonempty, the seed standing in as default). -/
noncomputable def passSegStep (pos : ℕ → ℝ → Pos) (segT : ℕ → ℝ) (seq : Seq)
    (segmentSources : ℕ → List ℕ) (seeds : List (Option ℕ))
    (maxSlewTime : ℝ) (extraSlewTime : List ℝ) (maxVisits : ℕ)
    (excludeSources : List (Option ℕ)) (lowElLimit : ℝ)
    (st : SegAcc) (i : ℕ) : SegAcc :=
  match seeds.getD i none with
  | none =>
    { st with segmentOrdered := st.segmentOrdered ++ [[]],
              segmentEstimates := st.segmentEstimates ++ [none],
              companions := st.companions ++ [[]] }
  | some sd =>
    { segmentOrdered := st.segmentOrdered
        ++ [(seq i st.lastSource sd (segSel pos segT segmentSources maxSlewTime
              extraSlewTime maxVisits excludeSources lowElLimit st sd i).1).ordered],
      segmentEstimates := st.segmentEstimates
        ++ [some (seq i st.lastSource sd (segSel pos segT segmentSources
              maxSlewTime extraSlewTime maxVisits excludeSources lowElLimit
              st sd i).1)],
      companions := st.companions
        ++ [(segSel pos segT segmentSources maxSlewTime extraSlewTime maxVisits
              excludeSources lowElLimit st sd i).1],
      seedAssociations := fun t =>
        if t = sd then
          match st.seedAssociations sd with
          | some pool => some pool
          | none => some (segSel pos segT segmentSources maxSlewTime
              extraSlewTime maxVisits excludeSources lowElLimit st sd i).1
        else st.seedAssociations t,
      sourceVisits := (segSel pos segT segmentSources maxSlewTime extraSlewTime
        maxVisits excludeSources lowElLimit st sd i).2,
      lastSource := some ((seq i st.lastSource sd (segSel pos segT
        segmentSources maxSlewTime extraSlewTime maxVisits excludeSources
        lowElLimit st sd i).1).ordered.getLastD sd) }

/-- The companion-selection fold over the first `n` segments, from the
pass's empty initial state (lines 559-563). -/
noncomputable def passSegments (pos : ℕ → ℝ → Pos) (segT : ℕ → ℝ) (seq : Seq)
    (segmentSources : ℕ → List ℕ) (seeds : List (Option ℕ))
    (maxSlewTime : ℝ) (extraSlewTime : List ℝ) (maxVisits : ℕ)
    (excludeSources : List (Option ℕ)) (lowElLimit : ℝ) (n : ℕ) : SegAcc :=
  (List.range n).foldl
    (passSegStep pos segT seq segmentSources seeds maxSlewTime extraSlewTime
      maxVisits excludeSources lowElLimit)
    ⟨[], [], [], fun _ => none, fun _ => none, none⟩

/-- Python list subscripting `l[k]` with possibly negative index
(negative indices wrap from the end; out of range is an
`IndexError`). -/
def pyGet {α : Type} (l : List α) (k : ℤ) : Option α :=
  if 0 ≤ k then l.get? k.toNat
  else if (-k).toNat ≤ l.length then l.get? (l.length - (-k).toNat)
  else none

/-- Python list element update `l[k] = f(l[k])` with the same indexing
rules. -/
def pySet (l : List ℝ) (k : ℤ) (f : ℝ → ℝ) : Option (List ℝ) :=
  match pyGet l k with
  | none => none
  | some v =>
    if 0 ≤ k then some (l.set k.toNat (f v))
    else some (l.set (l.length - (-k).toNat) (f v))

/-- The slop contribution of the boundary ending at seeded segment
`i` (lines 624-637): the previous sequenced segment is `i - diffBack`
(a Python index that can wrap to the end of the list when no earlier
segment was sequenced); the slew is between the previous segment's
last source and this segment's first source, both at the instant of
the previous segment's achieved end LST; the LST gap takes whichever
day-wrap interpretation is smaller in magnitude.  `none` is a crash
(unhandled `IndexError`/`TypeError`). -/
noncomputable def boundaryData (pos : ℕ → ℝ → Pos) (lstT : ℝ → ℝ)
    (ordered : List (List ℕ)) (estimates : List (Option MosRes))
    (i diffBack : ℕ) : Option ℝ :=
  match pyGet estimates ((i : ℤ) - diffBack) with
  | none => none
  | some none => none
  | some (some mPrev) =>
    match pyGet estimates (i : ℤ) with
    | none => none
    | some none => none
    | some (some mCur) =>
      match pyGet ordered ((i : ℤ) - diffBack) with
      | none => none
      | some lprev =>
        match pyGet lprev (-1) with
        | none => none
        | some lastSrc =>
          match pyGet ordered (i : ℤ) with
          | none => none
          | some lcur =>
            match pyGet lcur 0 with
            | none => none
            | some firstSrc =>
              some ((if |mCur.startLST + 86400 - mPrev.endLST|
                        < |mCur.startLST - mPrev.endLST|
                     then mCur.startLST + 86400 - mPrev.endLST
                     else mCur.startLST - mPrev.endLST)
                - calcSlewTime (pos lastSrc (lstT mPrev.endLST))
                    (pos firstSrc (lstT mPrev.endLST)))

/-- The state of the slop fold (lines 611-644): accumulated slop
(minutes), the distance back to the previous sequenced segment, the
per-segment extra-budget accumulators, and (for the record, as the
code prints at line 642) the per-boundary `slopDiff` values. -/
structure SlopAcc where
  slop : ℝ
  diffBack : ℕ
  extraSlewTime : List ℝ
  slopDiffs : List ℝ

/-- One step of the slop fold (lines 615-644): unseeded segments just
push the look-back further; a seeded segment beyond the first computes
its boundary slop, adds it to the total, and, when it exceeds the
120-second threshold, grows the *previous* sequenced segment's
extra budget by `slopDiff / 120` (lines 640-641). -/
noncomputable def slopStep (pos : ℕ → ℝ → Pos) (lstT : ℝ → ℝ)
    (seeds : List (Option ℕ)) (ordered : List (List ℕ))
    (estimates : List (Option MosRes)) (st : SlopAcc) (i : ℕ) : Option SlopAcc :=
  match seeds.getD i none with
  | none => some { st with diffBack := st.diffBack + 1 }
  | some _ =>
    if 0 < i then
      match boundaryData pos lstT ordered estimates i st.diffBack with
      | none => none
      | some slopDiff =>
        if 120 < slopDiff then
          match pySet st.extraSlewTime ((i : ℤ) - st.diffBack)
              (fun x => x + slopDiff / 120) with
          | none => none
          | some extra' =>
            some ⟨st.slop + slopDiff / 60, 1, extra', st.slopDiffs ++ [slopDiff]⟩
        else
          some ⟨st.slop + slopDiff / 60, 1, st.extraSlewTime,
            st.slopDiffs ++ [slopDiff]⟩
    else some st

/-- The slop fold over all segments (lines 610-644), starting from
slop 0 and look-back 1. -/
noncomputable def slopFold (pos : ℕ → ℝ → Pos) (lstT : ℝ → ℝ)
    (seeds : List (Option ℕ)) (ordered : List (List ℕ))
    (estimates : List (Option MosRes)) (n : ℕ) (extraSlewTime : List ℝ) :
    Option SlopAcc :=
  (List.range n).foldlM (slopStep pos lstT seeds ordered estimates)
    ⟨0, 1, extraSlewTime, []⟩

/-- Everything one refinement pass produces. -/
structure PassRes where
  segmentOrdered : List (List ℕ)
  segmentEstimates : List (Option MosRes)
  companions : List (List ℕ)
  sourceVisits : Ledger
  slop : ℝ
  extraSlewTime : List ℝ
  slopDiffs : List ℝ

/-- One full refinement pass (the body of the `while` loop, lines
558-644): companion selection and sequencing for every segment, then
the slop computation; `none` is a crash inside the slop section. -/
noncomputable def runPass (pos : ℕ → ℝ → Pos) (segT : ℕ → ℝ) (lstT : ℝ → ℝ)
    (seq : Seq) (segmentSources : ℕ → List ℕ) (seeds : List (Option ℕ))
    (maxSlewTime : ℝ) (maxVisits : ℕ) (excludeSources : List (Option ℕ))
    (lowElLimit : ℝ) (nSeg : ℕ) (extraSlewTime : List ℝ) : Option PassRes :=
  match slopFold pos lstT seeds
      (passSegments pos segT seq segmentSources seeds maxSlewTime extraSlewTime
        maxVisits excludeSources lowElLimit nSeg).segmentOrdered
      (passSegments pos segT seq segmentSources seeds maxSlewTime extraSlewTime
        maxVisits excludeSources lowElLimit nSeg).segmentEstimates
      nSeg extraSlewTime with
  | none => none
  | some sl =>
    some ⟨(passSegments pos segT seq segmentSources seeds maxSlewTime
        extraSlewTime maxVisits excludeSources lowElLimit nSeg).segmentOrdered,
      (passSegments pos segT seq segmentSources seeds maxSlewTime
        extraSlewTime maxVisits excludeSources lowElLimit nSeg).segmentEstimates,
      (passSegments pos segT seq segmentSources seeds maxSlewTime
        extraSlewTime maxVisits excludeSources lowElLimit nSeg).companions,
      (passSegments pos segT seq segmentSources seeds maxSlewTime
        extraSlewTime maxVisits excludeSources lowElLimit nSeg).sourceVisits,
      sl.slop, sl.extraSlewTime, sl.slopDiffs⟩

/-- The refinement `while` loop (line 558): the pass always runs at
least once (`slop` starts at `args.slop + 1`, line 556) and repeats
while the total slop exceeds the tolerance, feeding the grown budgets
back in.  The code has no iteration cap, so the fuel models the
possibility of non-termination: exhausted fuel (or a crash) means no
final schedule, `none`. -/
noncomputable def refineLoop (pos : ℕ → ℝ → Pos) (segT : ℕ → ℝ) (lstT : ℝ → ℝ)
    (seq : Seq) (segmentSources : ℕ → List ℕ) (seeds : List (Option ℕ))
    (maxSlewTime : ℝ) (maxVisits : ℕ) (excludeSources : List (Option ℕ))
    (lowElLimit : ℝ) (nSeg : ℕ) (slopTol : ℝ) :
    ℕ → List ℝ → Option PassRes
  | 0, _ => none
  | fuel + 1, extraSlewTime =>
    match runPass pos segT lstT seq segmentSources seeds maxSlewTime maxVisits
        excludeSources lowElLimit nSeg extraSlewTime with
    | none => none
    | some res =>
      if res.slop ≤ slopTol then some res
      else refineLoop pos segT lstT seq segmentSources seeds maxSlewTime
        maxVisits excludeSources lowElLimit nSeg slopTol fuel res.extraSlewTime

/-- The final visit-count loop (lines 670-679): walk the segments in
order, skip unseeded ones, and bump the `nvisits` dictionary for
every entry of the segment's ordered sequence. -/
def countVisits (seeds : List (Option ℕ)) (ordered : List (List ℕ)) : Ledger :=
  (List.range seeds.length).foldl
    (fun led i =>
      match seeds.getD i none with
      | none => led
      | some _ => (ordered.getD i []).foldl ledgerBump led)
    (fun _ => none)

/-- The planning pipeline from the segmenter state to the final visit
counts: visible sources and `segmentsUp` per segment from the
midpoint elevations (lines 462-481), the seed-selection loop, the
refinement loop with the seeds as the exclusion list (line 557) and
zero initial extra budgets (line 555), and the emitted schedule's
visit counts. -/
noncomputable def planVisitCounts (pos : ℕ → ℝ → Pos) (segT mid : ℕ → ℝ)
    (lstT : ℝ → ℝ) (seq : Seq) (sourceList : List ℕ) (nSeg : ℕ)
    (minel slewing adjacent slopTol maxSlewTime : ℝ) (nvisits : ℕ)
    (fuel : ℕ) : Option (List (Option ℕ) × PassRes) :=
  match refineLoop pos segT lstT seq
      (fun i => sourceList.filter (fun s => minel < (pos s (mid i)).el))
      (runSeedLoop pos segT slewing adjacent nvisits
        (fun i => sourceList.filter (fun s => minel < (pos s (mid i)).el))
        nSeg sourceList
        (sourceList.map (fun s =>
          (s, ((List.range nSeg).filter
            (fun i => minel < (pos s (mid i)).el)).length))))
      maxSlewTime nvisits
      (runSeedLoop pos segT slewing adjacent nvisits
        (fun i => sourceList.filter (fun s => minel < (pos s (mid i)).el))
        nSeg sourceList
        (sourceList.map (fun s =>
          (s, ((List.range nSeg).filter
            (fun i => minel < (pos s (mid i)).el)).length))))
      minel nSeg slopTol fuel (List.replicate nSeg 0) with
  | none => none
  | some res =>
    some (runSeedLoop pos segT slewing adjacent nvisits
      (fun i => sourceList.filter (fun s => minel < (pos s (mid i)).el))
      nSeg sourceList
      (sourceList.map (fun s =>
        (s, ((List.range nSeg).filter
          (fun i => minel < (pos s (mid i)).el)).length))), res)

/-- Sequencer oracle for the C5 counterexample: segment `i` visits
just its seed; the achieved LSTs leave a +150 s gap between segments
0 and 1 and a 150 s overlap between segments 1 and 2. -/
noncomputable def seqC : Seq := fun i _ sd _ =>
  if i = 0 then ⟨0, 1000, [sd]⟩
  else if i = 1 then ⟨1150, 2000, [sd]⟩
  else ⟨1850, 3000, [sd]⟩

/-- A trivial LST-to-instant oracle for the pass scenarios. -/
noncomputable def lstTC : ℝ → ℝ := fun _ => 0

/-- C5 counterexample: a refinement pass over three seeded segments
whose boundary slops are +150 s and −150 s.  The signed slops cancel:
the pass's total slop is 0, at or below the tolerance (20 min), yet
the pass adjusted segment 0's extra budget from 0 to 150/120 = 5/4
(the +150 s boundary exceeds the 120 s per-boundary threshold), so
the extra-budget accumulators are *not* unchanged — the claimed
idempotence fails on a converged schedule. -/
theorem runPass_converged_but_adjusted :
    (runPass posConst segTid lstTC seqC (fun _ => []) [some 10, some 11, some 12]
      9 4 [some 10, some 11, some 12] 20 3 [0, 0, 0]).map PassRes.slop = some 0 ∧
    (runPass posConst segTid lstTC seqC (fun _ => []) [some 10, some 11, some 12]
      9 4 [some 10, some 11, some 12] 20 3 [0, 0, 0]).map PassRes.extraSlewTime
      = some [5 / 4, 0, 0] ∧
    ((0 : ℝ) ≤ 20 ∧ ([5 / 4, 0, 0] : List ℝ) ≠ [0, 0, 0]) := by
  have hA : ¬ (|(1150 : ℝ) + 86400 - 1000| < |(1150 : ℝ) - 1000|) := by
    rw [abs_of_nonneg (by norm_num), abs_of_nonneg (by norm_num)]
    norm_num
  have hB : ¬ (|(1850 : ℝ) + 86400 - 2000| < |(1850 : ℝ) - 2000|) := by
    rw [abs_of_nonneg (by norm_num), abs_of_nonpos (by norm_num)]
    norm_num
  have hC : (120 : ℝ) < 1150 - 1000 := by norm_num
  have hD : ¬ ((120 : ℝ) < 1850 - 2000) := by norm_num
  refine ⟨?_, ?_, by norm_num, ?_⟩
  · simp [runPass, passSegments, passSegStep, segSel, segPool,
      findSegmentSources, selLoop,
      slopFold, slopStep, boundaryData, pyGet, pySet, calcSlewTime_self,
      posConst, lstTC, seqC, List.range_succ, List.foldl_append, List.getD,
      List.foldlM_cons, List.foldlM_nil, hA, hB, hC, hD]
    norm_num
  · simp [runPass, passSegments, passSegStep, segSel, segPool,
      findSegmentSources, selLoop,
      slopFold, slopStep, boundaryData, pyGet, pySet, calcSlewTime_self,
      posConst, lstTC, seqC, List.range_succ, List.foldl_append, List.getD,
      List.foldlM_cons, List.foldlM_nil, hA, hB, hC, hD]
    norm_num
  · intro h
    have := congrArg (fun l : List ℝ => l.getD 0 0) h
    norm_num at this

/-- A slop-fold step either leaves the recorded boundary list alone or
appends one boundary value; the extra budgets change only when that
value exceeds the 120 s threshold. -/
theorem slopStep_cases (pos : ℕ → ℝ → Pos) (lstT : ℝ → ℝ)
    (seeds : List (Option ℕ)) (ordered : List (List ℕ))
    (estimates : List (Option MosRes)) (st st' : SlopAcc) (i : ℕ)
    (h : slopStep pos lstT seeds ordered estimates st i = some st') :
    ∃ tail, st'.slopDiffs = st.slopDiffs ++ tail ∧
      (st'.extraSlewTime = st.extraSlewTime ∨ ∃ d ∈ tail, 120 < d) := by
  unfold slopStep at h
  split at h
  · cases h
    exact ⟨[], by simp, Or.inl rfl⟩
  · split at h
    · split at h
      · exact absurd h (by simp)
      · rename_i slopDiff hbd
        split at h
        · split at h
          · exact absurd h (by simp)
          · cases h
            exact ⟨[slopDiff], rfl, Or.inr ⟨slopDiff, by simp, by assumption⟩⟩
        · cases h
          exact ⟨[slopDiff], rfl, Or.inl rfl⟩
    · cases h
      exact ⟨[], by simp, Or.inl rfl⟩

/-- Folding slop steps: the final boundary list extends the initial
one, and the extra budgets are unchanged unless some recorded boundary
value exceeds 120 s. -/
theorem slopFold_extra (pos : ℕ → ℝ → Pos) (lstT : ℝ → ℝ)
    (seeds : List (Option ℕ)) (ordered : List (List ℕ))
    (estimates : List (Option MosRes)) :
    ∀ (l : List ℕ) (st stf : SlopAcc),
      l.foldlM (slopStep pos lstT seeds ordered estimates) st = some stf →
      ∃ tail, stf.slopDiffs = st.slopDiffs ++ tail ∧
        (stf.extraSlewTime = st.extraSlewTime ∨ ∃ d ∈ tail, 120 < d) := by
  intro l
  induction l with
  | nil =>
    intro st stf h
    cases h
    exact ⟨[], by simp, Or.inl rfl⟩
  | cons a t ih =>
    intro st stf h
    rw [List.foldlM_cons] at h
    cases hstep : slopStep pos lstT seeds ordered estimates st a with
    | none =>
      rw [hstep] at h
      exact absurd h (by simp)
    | some st1 =>
      rw [hstep] at h
      obtain ⟨t1, ht1, hd1⟩ := slopStep_cases pos lstT seeds ordered estimates
        st st1 a hstep
      obtain ⟨t2, ht2, hd2⟩ := ih st1 stf h
      refine ⟨t1 ++ t2, by rw [ht2, ht1, List.append_assoc], ?_⟩
      rcases hd1 with he1 | ⟨d, hdm, hgt⟩
      · rcases hd2 with he2 | ⟨d, hdm, hgt⟩
        · exact Or.inl (he2.trans he1)
        · exact Or.inr ⟨d, by simp [hdm], hgt⟩
      · exact Or.inr ⟨d, by simp [hdm], hgt⟩

/-- C5 amended: a refinement pass performs zero extra-budget
adjustments exactly when no individual boundary's slop exceeds the
fixed 120 s per-boundary threshold.  Total slop at or below the
tolerance does not suffice: boundary slops are signed, so a +150 s and
a −150 s boundary cancel to zero total slop while the +150 s boundary
still triggers an adjustment. -/
theorem runPass_no_adjust_of_small_boundaries (pos : ℕ → ℝ → Pos)
    (segT : ℕ → ℝ) (lstT : ℝ → ℝ) (seq : Seq) (segmentSources : ℕ → List ℕ)
    (seeds : List (Option ℕ)) (maxSlewTime : ℝ) (maxVisits : ℕ)
    (excludeSources : List (Option ℕ)) (lowElLimit : ℝ) (nSeg : ℕ)
    (extraSlewTime : List ℝ) (res : PassRes)
    (h : runPass pos segT lstT seq segmentSources seeds maxSlewTime maxVisits
      excludeSources lowElLimit nSeg extraSlewTime = some res)
    (hsmall : ∀ d ∈ res.slopDiffs, d ≤ 120) :
    res.extraSlewTime = extraSlewTime := by
  unfold runPass at h
  split at h
  · exact absurd h (by simp)
  · rename_i sl hsl
    cases h
    obtain ⟨tail, ht, hd⟩ := slopFold_extra pos lstT seeds _ _ (List.range nSeg)
      ⟨0, 1, extraSlewTime, []⟩ sl hsl
    rcases hd with he | ⟨d, hdm, hgt⟩
    · exact he
    · have hmem : d ∈ sl.slopDiffs := by
        rw [ht]
        simp [hdm]
      exact absurd (hsmall d hmem) (not_le.mpr hgt)

/-- Sequencer oracle for the C5 witness: two segments with a 60 s gap
between them. -/
noncomputable def seqW2 : Seq := fun i _ sd _ =>
  if i = 0 then ⟨0, 1000, [sd]⟩ else ⟨1060, 2000, [sd]⟩

/-- Witness for the amended C5 at a concrete pass: both budgets stay
zero when the single boundary's slop is 60 s ≤ 120 s. -/
theorem runPass_no_adjust_witness :
    (runPass posConst segTid lstTC seqW2 (fun _ => []) [some 10, some 11]
      9 4 [some 10, some 11] 20 2 [0, 0]).map PassRes.extraSlewTime
      = some [0, 0] := by
  have hA : ¬ (|(1060 : ℝ) + 86400 - 1000| < |(1060 : ℝ) - 1000|) := by
    rw [abs_of_nonneg (by norm_num), abs_of_nonneg (by norm_num)]
    norm_num
  have hD : ¬ ((120 : ℝ) < 1060 - 1000) := by norm_num
  have hsd : (runPass posConst segTid lstTC seqW2 (fun _ => []) [some 10, some 11]
      9 4 [some 10, some 11] 20 2 [0, 0]).map PassRes.slopDiffs
      = some [1060 - 1000 - 0] := by
    simp [runPass, passSegments, passSegStep, segSel, segPool,
      findSegmentSources, selLoop,
      slopFold, slopStep, boundaryData, pyGet, pySet, calcSlewTime_self,
      posConst, lstTC, seqW2, List.range_succ, List.foldl_append, List.getD,
      List.foldlM_cons, List.foldlM_nil, hA, hD]
  cases hr : runPass posConst segTid lstTC seqW2 (fun _ => []) [some 10, some 11]
      9 4 [some 10, some 11] 20 2 [0, 0] with
  | none =>
    rw [hr] at hsd
    exact absurd hsd (by simp)
  | some res =>
    rw [hr] at hsd
    simp only [Option.map_some'] at hsd
    have hres := runPass_no_adjust_of_small_boundaries posConst segTid lstTC
      seqW2 (fun _ => []) [some 10, some 11] 9 4 [some 10, some 11] 20 2 [0, 0]
      res hr (by
        intro d hd
        rw [Option.some.injEq] at hsd
        rw [hsd] at hd
        rw [List.mem_singleton.mp hd]
        norm_num)
    rw [Option.map_some', hres]

/-!  ## Visit-count bound for the emitted schedule (C2)  -/

theorem minEntry_mem : ∀ (l : List (ℕ × ℕ)) (kv : ℕ × ℕ),
    minEntry l = some kv → kv ∈ l := by
  intro l
  induction l with
  | nil => intro kv h; cases h
  | cons a t ih =>
    intro kv h
    rw [minEntry] at h
    cases hm : minEntry t with
    | none =>
      rw [hm] at h
      have h' : some a = some kv := h
      rw [Option.some.injEq] at h'
      subst h'
      exact List.mem_cons_self _ _
    | some kv' =>
      rw [hm] at h
      have h' : (if kv'.2 < a.2 then some kv' else some a) = some kv := h
      split at h'
      · rw [Option.some.injEq] at h'
        subst h'
        exact List.mem_cons_of_mem _ (ih _ hm)
      · rw [Option.some.injEq] at h'
        subst h'
        exact List.mem_cons_self _ _

/-- How many segments a given source ends up seeding. -/
def countSeeds (seeds : List (Option ℕ)) (s : ℕ) : ℕ :=
  seeds.countP (fun o => o == some s)

theorem countSeeds_replicate (n s : ℕ) : countSeeds (List.replicate n none) s = 0 := by
  induction n with
  | zero => rfl
  | succ n ih =>
    rw [countSeeds, List.replicate_succ, List.countP_cons] at *
    simp only [beq_iff_eq, reduceCtorEq, if_false]
    omega

theorem countSeeds_set_le (seeds : List (Option ℕ)) (k c s : ℕ) :
    countSeeds (seeds.set k (some c)) s
      ≤ countSeeds seeds s + (if c = s then 1 else 0) := by
  induction seeds generalizing k with
  | nil => simp [countSeeds, List.set]
  | cons a t ih =>
    cases k with
    | zero =>
      simp only [List.set, countSeeds, List.countP_cons, beq_iff_eq,
        Option.some.injEq]
      by_cases hcs : c = s
      · simp only [hcs, if_true]
        split <;> omega
      · simp only [hcs, if_false]
        split <;> omega
    | succ k =>
      simp only [List.set, countSeeds, List.countP_cons]
      have h := ih k
      rw [countSeeds, countSeeds] at h
      omega

theorem countSeeds_assign_le (c s : ℕ) :
    ∀ (idxs : List ℕ) (seeds : List (Option ℕ)),
      countSeeds (assignSeeds seeds c idxs) s
        ≤ countSeeds seeds s + (if c = s then idxs.length else 0) := by
  intro idxs
  induction idxs with
  | nil =>
    intro seeds
    simp [assignSeeds]
  | cons a rest ih =>
    intro seeds
    rw [assignSeeds]
    have h1 := ih (seeds.set a (some c))
    have h2 := countSeeds_set_le seeds a c s
    by_cases hcs : c = s
    · simp only [hcs, if_true] at *
      rw [List.length_cons]
      omega
    · simp only [hcs, if_false] at *
      omega

/-- The invariant of the seed loop for the visit bound: every source
seeds at most `nvisits` segments, and candidates still in
`segmentsUp` seed none. -/
def SeedCountInv (nvisits : ℕ) (segmentsUp : List (ℕ × ℕ))
    (seeds : List (Option ℕ)) : Prop :=
  (∀ s, countSeeds seeds s ≤ nvisits) ∧
  ∀ kv ∈ segmentsUp, countSeeds seeds kv.1 = 0

theorem seedLoop_countSeeds (pos : ℕ → ℝ → Pos) (segT : ℕ → ℝ)
    (slewing adjacent : ℝ) (nvisits : ℕ) (segmentSources : ℕ → List ℕ)
    (nSeg : ℕ) (sourceList : List ℕ) :
    ∀ (fuel : ℕ) (segmentsUp : List (ℕ × ℕ)) (seeds : List (Option ℕ)),
      SeedCountInv nvisits segmentsUp seeds →
      ∀ s, countSeeds (seedLoop pos segT slewing adjacent nvisits segmentSources
        nSeg sourceList fuel segmentsUp seeds) s ≤ nvisits := by
  intro fuel
  induction fuel with
  | zero => intro su seeds h s; exact h.1 s
  | succ fuel ih =>
    intro su seeds h s
    rw [seedLoop]
    by_cases hn : none ∈ seeds
    · rw [if_pos hn]
      cases hmin : minEntry su with
      | none => exact h.1 s
      | some kv =>
        obtain ⟨c, v⟩ := kv
        show countSeeds (seedRound pos segT slewing adjacent nvisits
          segmentSources nSeg sourceList
          (seedLoop pos segT slewing adjacent nvisits segmentSources nSeg
            sourceList fuel) su seeds c) s ≤ nvisits
        rw [seedRound]
        have hc0 : countSeeds seeds c = 0 := h.2 (c, v) (minEntry_mem su (c, v) hmin)
        have hfil : SeedCountInv nvisits (su.filter (fun kv => kv.1 ≠ c)) seeds :=
          ⟨h.1, fun kv hkv => h.2 kv (List.mem_of_mem_filter hkv)⟩
        by_cases hsrc : c ∈ sourceList
        · rw [if_pos hsrc]
          by_cases hchk : seedCheckFail pos segT slewing c seeds 0 = true
          · rw [if_pos hchk]
            exact ih _ _ hfil s
          · rw [if_neg hchk]
            by_cases hlen : nvisits ≤ (psegmentsOf pos segT adjacent
                segmentSources seeds c nSeg).length
            · rw [if_pos hlen]
              refine ih _ _ ⟨?_, ?_⟩ s
              · intro t
                have hle := countSeeds_assign_le c t
                  ((psegmentsOf pos segT adjacent segmentSources seeds c
                    nSeg).take nvisits) seeds
                have htake : ((psegmentsOf pos segT adjacent segmentSources
                    seeds c nSeg).take nvisits).length ≤ nvisits :=
                  (List.length_take _ _).le.trans (min_le_left _ _)
                by_cases hct : c = t
                · rw [if_pos hct] at hle
                  rw [← hct] at hle ⊢
                  omega
                · rw [if_neg hct] at hle
                  have := h.1 t
                  omega
              · intro kv hkv
                have hne : kv.1 ≠ c := by
                  have hmem := (List.mem_filter.mp hkv).2
                  simpa using hmem
                have hle := countSeeds_assign_le c kv.1
                  ((psegmentsOf pos segT adjacent segmentSources seeds c
                    nSeg).take nvisits) seeds
                rw [if_neg (fun hh => hne hh.symm)] at hle
                have h0 := h.2 kv (List.mem_of_mem_filter hkv)
                omega
            · rw [if_neg hlen]
              exact ih _ _ hfil s
        · rw [if_neg hsrc]
          exact ih _ _ hfil s
    · rw [if_neg hn]
      exact h.1 s

/-- The seed loop only ever overwrites slots, so the seed list keeps
its length. -/
theorem assignSeeds_length (c : ℕ) :
    ∀ (idxs : List ℕ) (seeds : List (Option ℕ)),
      (assignSeeds seeds c idxs).length = seeds.length := by
  intro idxs
  induction idxs with
  | nil => intro seeds; rfl
  | cons a rest ih =>
    intro seeds
    rw [assignSeeds, ih, List.length_set]

theorem seedLoop_length (pos : ℕ → ℝ → Pos) (segT : ℕ → ℝ)
    (slewing adjacent : ℝ) (nvisits : ℕ) (segmentSources : ℕ → List ℕ)
    (nSeg : ℕ) (sourceList : List ℕ) :
    ∀ (fuel : ℕ) (segmentsUp : List (ℕ × ℕ)) (seeds : List (Option ℕ)),
      (seedLoop pos segT slewing adjacent nvisits segmentSources nSeg
        sourceList fuel segmentsUp seeds).length = seeds.length := by
  intro fuel
  induction fuel with
  | zero => intro su seeds; rfl
  | succ fuel ih =>
    intro su seeds
    rw [seedLoop]
    by_cases hn : none ∈ seeds
    · rw [if_pos hn]
      cases hmin : minEntry su with
      | none => rfl
      | some kv =>
        obtain ⟨c, v⟩ := kv
        show (seedRound pos segT slewing adjacent nvisits segmentSources nSeg
          sourceList
          (seedLoop pos segT slewing adjacent nvisits segmentSources nSeg
            sourceList fuel) su seeds c).length = seeds.length
        rw [seedRound]
        by_cases hsrc : c ∈ sourceList
        · rw [if_pos hsrc]
          by_cases hchk : seedCheckFail pos segT slewing c seeds 0 = true
          · rw [if_pos hchk]
            exact ih _ _
          · rw [if_neg hchk]
            by_cases hlen : nvisits ≤ (psegmentsOf pos segT adjacent
                segmentSources seeds c nSeg).length
            · rw [if_pos hlen, ih]
              exact assignSeeds_length c _ seeds
            · rw [if_neg hlen]
              exact ih _ _
        · rw [if_neg hsrc]
          exact ih _ _
    · rw [if_neg hn]

theorem runSeedLoop_countSeeds (pos : ℕ → ℝ → Pos) (segT : ℕ → ℝ)
    (slewing adjacent : ℝ) (nvisits : ℕ) (segmentSources : ℕ → List ℕ)
    (nSeg : ℕ) (sourceList : List ℕ) (segmentsUp : List (ℕ × ℕ)) (s : ℕ) :
    countSeeds (runSeedLoop pos segT slewing adjacent nvisits segmentSources
      nSeg sourceList segmentsUp) s ≤ nvisits := by
  refine seedLoop_countSeeds pos segT slewing adjacent nvisits segmentSources
    nSeg sourceList _ _ _ ⟨?_, ?_⟩ s
  · intro t
    rw [countSeeds_replicate]
    exact Nat.zero_le _
  · intro kv _
    exact countSeeds_replicate nSeg kv.1

theorem runSeedLoop_length (pos : ℕ → ℝ → Pos) (segT : ℕ → ℝ)
    (slewing adjacent : ℝ) (nvisits : ℕ) (segmentSources : ℕ → List ℕ)
    (nSeg : ℕ) (sourceList : List ℕ) (segmentsUp : List (ℕ × ℕ)) :
    (runSeedLoop pos segT slewing adjacent nvisits segmentSources nSeg
      sourceList segmentsUp).length = nSeg := by
  rw [runSeedLoop, seedLoop_length, List.length_replicate]

theorem ledgerBump_getD (led : Ledger) (u s : ℕ) :
    ((ledgerBump led u) s).getD 0
      = (led s).getD 0 + (if s = u then 1 else 0) := by
  by_cases hsu : s = u
  · subst hsu
    simp [ledgerBump]
  · simp [ledgerBump, hsu]

/-- The selection loop's ledger tracks exactly the selections it
makes: final count = initial count + newly selected occurrences. -/
theorem selLoop_count_ledger (maxSlewTime : ℝ) (maxVisits : ℕ)
    (excludeSources : Option (List (Option ℕ))) :
    ∀ (cands : List (ℕ × ℝ)) (total : ℝ) (acc : List ℕ) (led : Ledger) (s : ℕ),
      ((selLoop maxSlewTime maxVisits excludeSources cands total acc led).2 s).getD 0
          + acc.count s
        = (led s).getD 0
          + (selLoop maxSlewTime maxVisits excludeSources cands total acc
              led).1.count s := by
  intro cands
  induction cands with
  | nil =>
    intro total acc led s
    rw [selLoop]
  | cons hd tl ih =>
    intro total acc led s
    obtain ⟨u, w⟩ := hd
    rw [selLoop]
    split
    · rfl
    · split
      · exact ih _ _ _ _
      · split
        · exact ih _ _ _ _
        · have h := ih (total + w / 60) (acc ++ [u]) (ledgerBump led u) s
          rw [List.count_append, ledgerBump_getD] at h
          have hu : List.count s [u] = if s = u then 1 else 0 := by
            by_cases hsu : s = u
            · rw [if_pos hsu, hsu]
              simp
            · rw [if_neg hsu]
              simp [hsu]
          rw [hu] at h
          omega

/-- The selection loop keeps every ledger entry at or below the visit
cap, provided the cap is at least one. -/
theorem selLoop_ledger_le (maxSlewTime : ℝ) (maxVisits : ℕ)
    (excludeSources : Option (List (Option ℕ))) (hmv : 1 ≤ maxVisits) :
    ∀ (cands : List (ℕ × ℝ)) (total : ℝ) (acc : List ℕ) (led : Ledger),
      (∀ s, (led s).getD 0 ≤ maxVisits) →
      ∀ s, ((selLoop maxSlewTime maxVisits excludeSources cands total acc
        led).2 s).getD 0 ≤ maxVisits := by
  intro cands
  induction cands with
  | nil =>
    intro total acc led hled s
    rw [selLoop]
    exact hled s
  | cons hd tl ih =>
    intro total acc led hled s
    obtain ⟨u, w⟩ := hd
    rw [selLoop]
    split
    · exact hled s
    · split
      · exact ih _ _ _ hled s
      · split
        · exact ih _ _ _ hled s
        · refine ih _ _ _ ?_ s
          intro t
          rw [ledgerBump_getD]
          by_cases htu : t = u
          · rw [if_pos htu, htu]
            rename_i hcap _
            have hcap' : ∀ v, led u = some v → v < maxVisits := by
              intro v hv
              unfold atCap at hcap
              rw [hv] at hcap
              simpa using hcap
            cases hu : led u with
            | none =>
              simpa using hmv
            | some v =>
              simp only [Option.getD_some]
              have := hcap' v hu
              omega
          · rw [if_neg htu]
            have := hled t
            omega

/-- The selection loop never selects an excluded source. -/
theorem selLoop_excluded (maxSlewTime : ℝ) (maxVisits : ℕ)
    (exList : List (Option ℕ)) (x : ℕ) (hx : some x ∈ exList) :
    ∀ (cands : List (ℕ × ℝ)) (total : ℝ) (acc : List ℕ) (led : Ledger),
      x ∉ acc →
      x ∉ (selLoop maxSlewTime maxVisits (some exList) cands total acc led).1 := by
  intro cands
  induction cands with
  | nil =>
    intro total acc led hacc
    rw [selLoop]
    exact hacc
  | cons hd tl ih =>
    intro total acc led hacc
    obtain ⟨u, w⟩ := hd
    rw [selLoop]
    split
    · exact hacc
    · split
      · exact ih _ _ _ hacc
      · split
        · exact ih _ _ _ hacc
        · rename_i hexc
          refine ih _ _ _ ?_
          intro hmem
          rcases List.mem_append.mp hmem with h' | h'
          · exact hacc h'
          · rw [List.mem_singleton.mp h'] at hx
            unfold excludedIn at hexc
            have hne : some u ∉ exList := by simpa using hexc
            exact hne hx

/-- `findSegmentSources`: the ledger it returns counts exactly the
companions it selected, on top of what the ledger already held. -/
theorem findSegmentSources_count_ledger (pos : ℕ → ℝ → Pos) (seedSource : ℕ)
    (possibleSources : List ℕ) (maxSlewTime segmentStartTime : ℝ)
    (nVisits : Ledger) (maxVisits : ℕ) (excludeSources : Option (List (Option ℕ)))
    (lowElLimit : ℝ) (s : ℕ) :
    (((findSegmentSources pos seedSource possibleSources maxSlewTime
        segmentStartTime nVisits maxVisits excludeSources lowElLimit).2) s).getD 0
      = (nVisits s).getD 0
        + ((findSegmentSources pos seedSource possibleSources maxSlewTime
            segmentStartTime nVisits maxVisits excludeSources
            lowElLimit).1).count s := by
  unfold findSegmentSources
  have h := selLoop_count_ledger maxSlewTime maxVisits excludeSources
    (List.insertionSort (fun a b => a.2 ≤ b.2)
      (possibleSources.filterMap (fun t =>
        if seedSource ≠ t then
          if lowElLimit < (pos t segmentStartTime).el then
            some (t, calcSlewTime (pos seedSource segmentStartTime)
              (pos t segmentStartTime))
          else none
        else none)))
    0 [] nVisits s
  simpa using h

theorem findSegmentSources_ledger_le (pos : ℕ → ℝ → Pos) (seedSource : ℕ)
    (possibleSources : List ℕ) (maxSlewTime segmentStartTime : ℝ)
    (nVisits : Ledger) (maxVisits : ℕ) (excludeSources : Option (List (Option ℕ)))
    (lowElLimit : ℝ) (hmv : 1 ≤ maxVisits)
    (hled : ∀ s, (nVisits s).getD 0 ≤ maxVisits) (s : ℕ) :
    (((findSegmentSources pos seedSource possibleSources maxSlewTime
        segmentStartTime nVisits maxVisits excludeSources lowElLimit).2) s).getD 0
      ≤ maxVisits := by
  unfold findSegmentSources
  exact selLoop_ledger_le maxSlewTime maxVisits excludeSources hmv _ 0 [] nVisits
    hled s

theorem findSegmentSources_excluded (pos : ℕ → ℝ → Pos) (seedSource : ℕ)
    (possibleSources : List ℕ) (maxSlewTime segmentStartTime : ℝ)
    (nVisits : Ledger) (maxVisits : ℕ) (exList : List (Option ℕ))
    (lowElLimit : ℝ) (x : ℕ) (hx : some x ∈ exList) :
    x ∉ (findSegmentSources pos seedSource possibleSources maxSlewTime
      segmentStartTime nVisits maxVisits (some exList) lowElLimit).1 := by
  unfold findSegmentSources
  exact selLoop_excluded maxSlewTime maxVisits exList x hx _ 0 [] nVisits
    (by simp)

/-! For C2: one pass of the refinement loop unrolled one segment at a
time, and the invariant the pass maintains on the per-segment lists
and the shared visit ledger. -/

theorem passSegments_succ (pos : ℕ → ℝ → Pos) (segT : ℕ → ℝ) (seq : Seq)
    (segmentSources : ℕ → List ℕ) (seeds : List (Option ℕ))
    (maxSlewTime : ℝ) (extraSlewTime : List ℝ) (maxVisits : ℕ)
    (excludeSources : List (Option ℕ)) (lowElLimit : ℝ) (n : ℕ) :
    passSegments pos segT seq segmentSources seeds maxSlewTime extraSlewTime
        maxVisits excludeSources lowElLimit (n + 1)
      = passSegStep pos segT seq segmentSources seeds maxSlewTime extraSlewTime
          maxVisits excludeSources lowElLimit
          (passSegments pos segT seq segmentSources seeds maxSlewTime
            extraSlewTime maxVisits excludeSources lowElLimit n) n := by
  rw [passSegments, passSegments, List.range_succ, List.foldl_append,
    List.foldl_cons, List.foldl_nil]

theorem passSegStep_none (pos : ℕ → ℝ → Pos) (segT : ℕ → ℝ) (seq : Seq)
    (segmentSources : ℕ → List ℕ) (seeds : List (Option ℕ))
    (maxSlewTime : ℝ) (extraSlewTime : List ℝ) (maxVisits : ℕ)
    (excludeSources : List (Option ℕ)) (lowElLimit : ℝ)
    (st : SegAcc) (i : ℕ) (h : seeds.getD i none = none) :
    passSegStep pos segT seq segmentSources seeds maxSlewTime extraSlewTime
        maxVisits excludeSources lowElLimit st i
      = { st with segmentOrdered := st.segmentOrdered ++ [[]],
                  segmentEstimates := st.segmentEstimates ++ [none],
                  companions := st.companions ++ [[]] } := by
  unfold passSegStep
  rw [h]

theorem passSegStep_some (pos : ℕ → ℝ → Pos) (segT : ℕ → ℝ) (seq : Seq)
    (segmentSources : ℕ → List ℕ) (seeds : List (Option ℕ))
    (maxSlewTime : ℝ) (extraSlewTime : List ℝ) (maxVisits : ℕ)
    (excludeSources : List (Option ℕ)) (lowElLimit : ℝ)
    (st : SegAcc) (i sd : ℕ) (h : seeds.getD i none = some sd) :
    passSegStep pos segT seq segmentSources seeds maxSlewTime extraSlewTime
        maxVisits excludeSources lowElLimit st i
      = { segmentOrdered := st.segmentOrdered
            ++ [(seq i st.lastSource sd (segSel pos segT segmentSources
                  maxSlewTime extraSlewTime maxVisits excludeSources lowElLimit
                  st sd i).1).ordered],
          segmentEstimates := st.segmentEstimates
            ++ [some (seq i st.lastSource sd (segSel pos segT segmentSources
                  maxSlewTime extraSlewTime maxVisits excludeSources lowElLimit
                  st sd i).1)],
          companions := st.companions
            ++ [(segSel pos segT segmentSources maxSlewTime extraSlewTime
                  maxVisits excludeSources lowElLimit st sd i).1],
          seedAssociations := fun t =>
            if t = sd then
              match st.seedAssociations sd with
              | some pool => some pool
              | none => some (segSel pos segT segmentSources maxSlewTime
                  extraSlewTime maxVisits excludeSources lowElLimit st sd i).1
            else st.seedAssociations t,
          sourceVisits := (segSel pos segT segmentSources maxSlewTime
            extraSlewTime maxVisits excludeSources lowElLimit st sd i).2,
          lastSource := some ((seq i st.lastSource sd (segSel pos segT
            segmentSources maxSlewTime extraSlewTime maxVisits excludeSources
            lowElLimit st sd i).1).ordered.getLastD sd) } := by
  unfold passSegStep
  rw [h]

theorem segSel_count_ledger (pos : ℕ → ℝ → Pos) (segT : ℕ → ℝ)
    (segmentSources : ℕ → List ℕ) (maxSlewTime : ℝ) (extraSlewTime : List ℝ)
    (maxVisits : ℕ) (excludeSources : List (Option ℕ)) (lowElLimit : ℝ)
    (st : SegAcc) (sd i s : ℕ) :
    (((segSel pos segT segmentSources maxSlewTime extraSlewTime maxVisits
        excludeSources lowElLimit st sd i).2) s).getD 0
      = (st.sourceVisits s).getD 0
        + ((segSel pos segT segmentSources maxSlewTime extraSlewTime maxVisits
            excludeSources lowElLimit st sd i).1).count s :=
  findSegmentSources_count_ledger pos sd (segPool st segmentSources sd i)
    (maxSlewTime + extraSlewTime.getD i 0) (segT i) st.sourceVisits maxVisits
    (some excludeSources) lowElLimit s

theorem segSel_ledger_le (pos : ℕ → ℝ → Pos) (segT : ℕ → ℝ)
    (segmentSources : ℕ → List ℕ) (maxSlewTime : ℝ) (extraSlewTime : List ℝ)
    (maxVisits : ℕ) (excludeSources : List (Option ℕ)) (lowElLimit : ℝ)
    (st : SegAcc) (sd i : ℕ) (hmv : 1 ≤ maxVisits)
    (hled : ∀ s, (st.sourceVisits s).getD 0 ≤ maxVisits) (s : ℕ) :
    (((segSel pos segT segmentSources maxSlewTime extraSlewTime maxVisits
        excludeSources lowElLimit st sd i).2) s).getD 0 ≤ maxVisits :=
  findSegmentSources_ledger_le pos sd (segPool st segmentSources sd i)
    (maxSlewTime + extraSlewTime.getD i 0) (segT i) st.sourceVisits maxVisits
    (some excludeSources) lowElLimit hmv hled s

theorem segSel_excluded (pos : ℕ → ℝ → Pos) (segT : ℕ → ℝ)
    (segmentSources : ℕ → List ℕ) (maxSlewTime : ℝ) (extraSlewTime : List ℝ)
    (maxVisits : ℕ) (excludeSources : List (Option ℕ)) (lowElLimit : ℝ)
    (st : SegAcc) (sd i : ℕ) (x : ℕ) (hx : some x ∈ excludeSources) :
    x ∉ (segSel pos segT segmentSources maxSlewTime extraSlewTime maxVisits
      excludeSources lowElLimit st sd i).1 :=
  findSegmentSources_excluded pos sd (segPool st segmentSources sd i)
    (maxSlewTime + extraSlewTime.getD i 0) (segT i) st.sourceVisits maxVisits
    excludeSources lowElLimit x hx

/-- The invariant the per-segment fold maintains after `n` segments:
the per-segment lists have one entry per processed segment, the
shared ledger counts exactly the companion selections so far, the
ledger never exceeds the visit cap, excluded sources are never
selected, unseeded segments got empty entries, and a seeded segment's
sequence is its seed plus its companions (sequencer contract). -/
def PassInv (seeds : List (Option ℕ)) (excludeSources : List (Option ℕ))
    (maxVisits n : ℕ) (st : SegAcc) : Prop :=
  st.segmentOrdered.length = n ∧
  st.companions.length = n ∧
  (∀ s, (st.sourceVisits s).getD 0
      = (st.companions.map (fun l => l.count s)).sum) ∧
  (1 ≤ maxVisits → ∀ s, (st.sourceVisits s).getD 0 ≤ maxVisits) ∧
  (∀ x, some x ∈ excludeSources → ∀ l ∈ st.companions, x ∉ l) ∧
  (∀ k, k < n →
    (seeds.getD k none = none →
      st.segmentOrdered.getD k [] = [] ∧ st.companions.getD k [] = []) ∧
    (∀ sd, seeds.getD k none = some sd → ∀ s,
      (st.segmentOrdered.getD k []).count s
        = (st.companions.getD k []).count s + (if s = sd then 1 else 0)))

theorem passInv_step (pos : ℕ → ℝ → Pos) (segT : ℕ → ℝ) (seq : Seq)
    (segmentSources : ℕ → List ℕ) (seeds : List (Option ℕ))
    (maxSlewTime : ℝ) (extraSlewTime : List ℝ) (maxVisits : ℕ)
    (excludeSources : List (Option ℕ)) (lowElLimit : ℝ)
    (hseq : ∀ i last sd cs, ((seq i last sd cs).ordered).Perm (sd :: cs))
    (n : ℕ) (st : SegAcc)
    (h : PassInv seeds excludeSources maxVisits n st) :
    PassInv seeds excludeSources maxVisits (n + 1)
      (passSegStep pos segT seq segmentSources seeds maxSlewTime extraSlewTime
        maxVisits excludeSources lowElLimit st n) := by
  obtain ⟨hlo, hlc, hsum, hcap, hexc, hseg⟩ := h
  cases hsd : seeds.getD n none with
  | none =>
    rw [passSegStep_none pos segT seq segmentSources seeds maxSlewTime
      extraSlewTime maxVisits excludeSources lowElLimit st n hsd]
    refine ⟨?_, ?_, ?_, ?_, ?_, ?_⟩
    · simp [hlo]
    · simp [hlc]
    · intro s
      simp [hsum s]
    · intro hmv s
      exact hcap hmv s
    · intro x hx l hl
      simp only [List.mem_append, List.mem_singleton] at hl
      rcases hl with hl | hl
      · exact hexc x hx l hl
      · subst hl
        exact List.not_mem_nil x
    · intro k hk
      rcases Nat.lt_succ_iff_lt_or_eq.mp hk with hkn | hkn
      · constructor
        · intro hknone
          have h1 := (hseg k hkn).1 hknone
          constructor
          · rw [List.getD_append _ _ _ _ (by rw [hlo]; exact hkn)]
            exact h1.1
          · rw [List.getD_append _ _ _ _ (by rw [hlc]; exact hkn)]
            exact h1.2
        · intro sd' hksome s
          rw [List.getD_append _ _ _ _ (by rw [hlo]; exact hkn),
            List.getD_append _ _ _ _ (by rw [hlc]; exact hkn)]
          exact (hseg k hkn).2 sd' hksome s
      · subst hkn
        constructor
        · intro _
          constructor
          · rw [List.getD_append_right _ _ _ _ (le_of_eq hlo), hlo,
              Nat.sub_self]
            rfl
          · rw [List.getD_append_right _ _ _ _ (le_of_eq hlc), hlc,
              Nat.sub_self]
            rfl
        · intro sd' hksome s
          rw [hsd] at hksome
          cases hksome
  | some sd =>
    rw [passSegStep_some pos segT seq segmentSources seeds maxSlewTime
      extraSlewTime maxVisits excludeSources lowElLimit st n sd hsd]
    refine ⟨?_, ?_, ?_, ?_, ?_, ?_⟩
    · simp [hlo]
    · simp [hlc]
    · intro s
      rw [segSel_count_ledger pos segT segmentSources maxSlewTime extraSlewTime
        maxVisits excludeSources lowElLimit st sd n s, hsum s, List.map_append,
        List.sum_append]
      simp
    · intro hmv s
      exact segSel_ledger_le pos segT segmentSources maxSlewTime extraSlewTime
        maxVisits excludeSources lowElLimit st sd n hmv (hcap hmv) s
    · intro x hx l hl
      simp only [List.mem_append, List.mem_singleton] at hl
      rcases hl with hl | hl
      · exact hexc x hx l hl
      · subst hl
        exact segSel_excluded pos segT segmentSources maxSlewTime extraSlewTime
          maxVisits excludeSources lowElLimit st sd n x hx
    · intro k hk
      rcases Nat.lt_succ_iff_lt_or_eq.mp hk with hkn | hkn
      · constructor
        · intro hknone
          have h1 := (hseg k hkn).1 hknone
          constructor
          · rw [List.getD_append _ _ _ _ (by rw [hlo]; exact hkn)]
            exact h1.1
          · rw [List.getD_append _ _ _ _ (by rw [hlc]; exact hkn)]
            exact h1.2
        · intro sd' hksome s
          rw [List.getD_append _ _ _ _ (by rw [hlo]; exact hkn),
            List.getD_append _ _ _ _ (by rw [hlc]; exact hkn)]
          exact (hseg k hkn).2 sd' hksome s
      · subst hkn
        constructor
        · intro hknone
          rw [hsd] at hknone
          cases hknone
        · intro sd' hksome s
          rw [hsd] at hksome
          have hsd2 : sd = sd' := by
            rw [Option.some.injEq] at hksome
            exact hksome
          subst hsd2
          rw [List.getD_append_right _ _ _ _ (le_of_eq hlo), hlo, Nat.sub_self,
            List.getD_append_right _ _ _ _ (le_of_eq hlc), hlc, Nat.sub_self]
          show ((seq k st.lastSource sd (segSel pos segT segmentSources
              maxSlewTime extraSlewTime maxVisits excludeSources lowElLimit
              st sd k).1).ordered).count s
            = ((segSel pos segT segmentSources maxSlewTime extraSlewTime
                maxVisits excludeSources lowElLimit st sd k).1).count s
              + (if s = sd then 1 else 0)
          rw [(hseq k st.lastSource sd (segSel pos segT segmentSources
            maxSlewTime extraSlewTime maxVisits excludeSources lowElLimit
            st sd k).1).count_eq, List.count_cons]
          by_cases hssd : s = sd
          · simp [hssd]
          · have hssd2 : ¬sd = s := fun h2 => hssd h2.symm
            simp [hssd, hssd2]

theorem passSegments_inv (pos : ℕ → ℝ → Pos) (segT : ℕ → ℝ) (seq : Seq)
    (segmentSources : ℕ → List ℕ) (seeds : List (Option ℕ))
    (maxSlewTime : ℝ) (extraSlewTime : List ℝ) (maxVisits : ℕ)
    (excludeSources : List (Option ℕ)) (lowElLimit : ℝ)
    (hseq : ∀ i last sd cs, ((seq i last sd cs).ordered).Perm (sd :: cs)) :
    ∀ n : ℕ, PassInv seeds excludeSources maxVisits n
      (passSegments pos segT seq segmentSources seeds maxSlewTime extraSlewTime
        maxVisits excludeSources lowElLimit n) := by
  intro n
  induction n with
  | zero =>
    refine ⟨rfl, rfl, fun s => rfl, fun _ s => Nat.zero_le _, ?_, ?_⟩
    · intro x hx l hl
      exact absurd hl (List.not_mem_nil l)
    · intro k hk
      exact absurd hk (Nat.not_lt_zero k)
  | succ n ih =>
    rw [passSegments_succ]
    exact passInv_step pos segT seq segmentSources seeds maxSlewTime
      extraSlewTime maxVisits excludeSources lowElLimit hseq n _ ih

/-- Folding the ledger bump over a list adds exactly each element's
multiplicity (final count loop, lines 675-679). -/
theorem foldl_ledgerBump_getD : ∀ (l : List ℕ) (led : Ledger) (s : ℕ),
    ((l.foldl ledgerBump led) s).getD 0 = (led s).getD 0 + l.count s := by
  intro l
  induction l with
  | nil =>
    intro led s
    simp
  | cons a t ih =>
    intro led s
    rw [List.foldl_cons, ih, ledgerBump_getD, List.count_cons]
    by_cases hsa : s = a
    · simp [hsa]
      omega
    · have hsa2 : ¬a = s := fun h2 => hsa h2.symm
      simp [hsa, hsa2]

/-- One segment's contribution to the final visit count of source
`s`: nothing for an unseeded segment, the multiplicity of `s` in the
segment's ordered sequence otherwise. -/
def visitTerm (seeds : List (Option ℕ)) (ordered : List (List ℕ))
    (s i : ℕ) : ℕ :=
  match seeds.getD i none with
  | none => 0
  | some _ => (ordered.getD i []).count s

theorem countVisits_fold (seeds : List (Option ℕ)) (ordered : List (List ℕ))
    (s : ℕ) :
    ∀ (idxs : List ℕ) (led : Ledger),
      ((idxs.foldl (fun led i =>
          match seeds.getD i none with
          | none => led
          | some _ => (ordered.getD i []).foldl ledgerBump led) led) s).getD 0
        = (led s).getD 0 + (idxs.map (visitTerm seeds ordered s)).sum := by
  intro idxs
  induction idxs with
  | nil =>
    intro led
    simp
  | cons a t ih =>
    intro led
    rw [List.foldl_cons, List.map_cons, List.sum_cons, ih]
    cases ha : seeds.getD a none with
    | none =>
      simp only [ha, visitTerm]
      omega
    | some sd =>
      simp only [ha, visitTerm]
      rw [foldl_ledgerBump_getD]
      omega

theorem countVisits_getD (seeds : List (Option ℕ)) (ordered : List (List ℕ))
    (s : ℕ) :
    ((countVisits seeds ordered) s).getD 0
      = ((List.range seeds.length).map (visitTerm seeds ordered s)).sum := by
  rw [countVisits, countVisits_fold]
  simp

theorem sum_split_counts (seeds : List (Option ℕ))
    (companions : List (List ℕ)) (s : ℕ) :
    ∀ idxs : List ℕ,
      (idxs.map (fun i => (companions.getD i []).count s
          + (if seeds.getD i none = some s then 1 else 0))).sum
        = (idxs.map (fun i => (companions.getD i []).count s)).sum
          + (idxs.map (fun i =>
              if seeds.getD i none = some s then 1 else 0)).sum := by
  intro idxs
  induction idxs with
  | nil => rfl
  | cons a t ih =>
    simp only [List.map_cons, List.sum_cons, ih]
    omega

theorem sum_range_count (s : ℕ) :
    ∀ companions : List (List ℕ),
      ((List.range companions.length).map
        (fun i => (companions.getD i []).count s)).sum
      = (companions.map (fun l => l.count s)).sum := by
  intro companions
  induction companions with
  | nil => rfl
  | cons a t ih =>
    rw [List.length_cons, List.range_succ_eq_map, List.map_cons, List.map_map,
      List.sum_cons]
    have hmap : (List.range t.length).map
        ((fun i => ((a :: t).getD i []).count s) ∘ Nat.succ)
        = (List.range t.length).map (fun i => (t.getD i []).count s) := by
      apply List.map_congr_left
      intro i _
      rfl
    rw [hmap, ih]
    simp

theorem sum_range_seed (s : ℕ) :
    ∀ seeds : List (Option ℕ),
      ((List.range seeds.length).map
        (fun i => if seeds.getD i none = some s then 1 else 0)).sum
      = countSeeds seeds s := by
  intro seeds
  induction seeds with
  | nil => rfl
  | cons a t ih =>
    rw [List.length_cons, List.range_succ_eq_map, List.map_cons, List.map_map,
      List.sum_cons]
    have hmap : (List.range t.length).map
        ((fun i => if (a :: t).getD i none = some s then 1 else 0) ∘ Nat.succ)
        = (List.range t.length).map
            (fun i => if t.getD i none = some s then 1 else 0) := by
      apply List.map_congr_left
      intro i _
      rfl
    rw [hmap, ih, countSeeds, countSeeds, List.countP_cons]
    have hz : (a :: t).getD 0 none = a := rfl
    rw [hz]
    by_cases h : a = some s
    · rw [if_pos h, if_pos (by simp [h])]
      omega
    · rw [if_neg h, if_neg (by simp [h])]
      omega

/-- Any schedule the refinement loop emits is the output of some
single pass (the loop only ever returns a pass's own result). -/
theorem refineLoop_runPass (pos : ℕ → ℝ → Pos) (segT : ℕ → ℝ) (lstT : ℝ → ℝ)
    (seq : Seq) (segmentSources : ℕ → List ℕ) (seeds : List (Option ℕ))
    (maxSlewTime : ℝ) (maxVisits : ℕ) (excludeSources : List (Option ℕ))
    (lowElLimit : ℝ) (nSeg : ℕ) (slopTol : ℝ) :
    ∀ (fuel : ℕ) (extra : List ℝ) (res : PassRes),
      refineLoop pos segT lstT seq segmentSources seeds maxSlewTime maxVisits
        excludeSources lowElLimit nSeg slopTol fuel extra = some res →
      ∃ extra2, runPass pos segT lstT seq segmentSources seeds maxSlewTime
        maxVisits excludeSources lowElLimit nSeg extra2 = some res := by
  intro fuel
  induction fuel with
  | zero =>
    intro extra res h
    cases h
  | succ fuel ih =>
    intro extra res h
    rw [refineLoop] at h
    cases hrp : runPass pos segT lstT seq segmentSources seeds maxSlewTime
        maxVisits excludeSources lowElLimit nSeg extra with
    | none =>
      rw [hrp] at h
      cases h
    | some r =>
      rw [hrp] at h
      have h2 : (if r.slop ≤ slopTol then some r
          else refineLoop pos segT lstT seq segmentSources seeds maxSlewTime
            maxVisits excludeSources lowElLimit nSeg slopTol fuel
            r.extraSlewTime) = some res := h
      by_cases hs : r.slop ≤ slopTol
      · rw [if_pos hs, Option.some.injEq] at h2
        subst h2
        exact ⟨extra, hrp⟩
      · rw [if_neg hs] at h2
        exact ih _ _ h2

/-- A successful pass's emitted lists are the per-segment fold's. -/
theorem runPass_fields (pos : ℕ → ℝ → Pos) (segT : ℕ → ℝ) (lstT : ℝ → ℝ)
    (seq : Seq) (segmentSources : ℕ → List ℕ) (seeds : List (Option ℕ))
    (maxSlewTime : ℝ) (maxVisits : ℕ) (excludeSources : List (Option ℕ))
    (lowElLimit : ℝ) (nSeg : ℕ) (extraSlewTime : List ℝ) (res : PassRes)
    (h : runPass pos segT lstT seq segmentSources seeds maxSlewTime maxVisits
      excludeSources lowElLimit nSeg extraSlewTime = some res) :
    res.segmentOrdered = (passSegments pos segT seq segmentSources seeds
        maxSlewTime extraSlewTime maxVisits excludeSources lowElLimit
        nSeg).segmentOrdered
      ∧ res.companions = (passSegments pos segT seq segmentSources seeds
          maxSlewTime extraSlewTime maxVisits excludeSources lowElLimit
          nSeg).companions
      ∧ res.sourceVisits = (passSegments pos segT seq segmentSources seeds
          maxSlewTime extraSlewTime maxVisits excludeSources lowElLimit
          nSeg).sourceVisits := by
  unfold runPass at h
  cases hsf : slopFold pos lstT seeds
      (passSegments pos segT seq segmentSources seeds maxSlewTime extraSlewTime
        maxVisits excludeSources lowElLimit nSeg).segmentOrdered
      (passSegments pos segT seq segmentSources seeds maxSlewTime extraSlewTime
        maxVisits excludeSources lowElLimit nSeg).segmentEstimates
      nSeg extraSlewTime with
  | none =>
    rw [hsf] at h
    cases h
  | some sl =>
    rw [hsf] at h
    have h2 : some (⟨(passSegments pos segT seq segmentSources seeds
        maxSlewTime extraSlewTime maxVisits excludeSources lowElLimit
        nSeg).segmentOrdered,
      (passSegments pos segT seq segmentSources seeds maxSlewTime extraSlewTime
        maxVisits excludeSources lowElLimit nSeg).segmentEstimates,
      (passSegments pos segT seq segmentSources seeds maxSlewTime extraSlewTime
        maxVisits excludeSources lowElLimit nSeg).companions,
      (passSegments pos segT seq segmentSources seeds maxSlewTime extraSlewTime
        maxVisits excludeSources lowElLimit nSeg).sourceVisits,
      sl.slop, sl.extraSlewTime, sl.slopDiffs⟩ : PassRes) = some res := h
    rw [Option.some.injEq] at h2
    subst h2
    exact ⟨rfl, rfl, rfl⟩

/-- The heart of the visit bound: for a pass run with the seed list
doubling as the exclusion list and the visit cap, the emitted
schedule's visit count of any source stays within the cap, provided
no source seeds more than the cap's worth of segments. -/
theorem countVisits_pass_le (pos : ℕ → ℝ → Pos) (segT : ℕ → ℝ) (seq : Seq)
    (segmentSources : ℕ → List ℕ) (seeds : List (Option ℕ))
    (maxSlewTime : ℝ) (extraSlewTime : List ℝ) (nvisits : ℕ)
    (lowElLimit : ℝ) (nSeg : ℕ)
    (hseq : ∀ i last sd cs, ((seq i last sd cs).ordered).Perm (sd :: cs))
    (hlen : seeds.length = nSeg)
    (hcount : ∀ t, countSeeds seeds t ≤ nvisits) (s : ℕ) :
    ((countVisits seeds (passSegments pos segT seq segmentSources seeds
        maxSlewTime extraSlewTime nvisits seeds lowElLimit
        nSeg).segmentOrdered) s).getD 0 ≤ nvisits := by
  obtain ⟨hlo, hlc, hsum, hcap, hexc, hseg⟩ := passSegments_inv pos segT seq
    segmentSources seeds maxSlewTime extraSlewTime nvisits seeds lowElLimit
    hseq nSeg
  set P := passSegments pos segT seq segmentSources seeds maxSlewTime
    extraSlewTime nvisits seeds lowElLimit nSeg with hP
  rw [countVisits_getD]
  have hterm : ∀ i ∈ List.range seeds.length,
      visitTerm seeds P.segmentOrdered s i
        = (P.companions.getD i []).count s
          + (if seeds.getD i none = some s then 1 else 0) := by
    intro i hi
    have hin : i < nSeg := by
      rw [← hlen]
      exact List.mem_range.mp hi
    cases hgi : seeds.getD i none with
    | none =>
      have h1 := (hseg i hin).1 hgi
      rw [visitTerm, hgi, h1.2]
      simp
    | some sd =>
      have h1 := (hseg i hin).2 sd hgi s
      simp only [visitTerm, hgi]
      rw [h1]
      by_cases hssd : s = sd
      · subst hssd
        simp
      · have h3 : ¬(some sd = some s) := by
          intro hcon
          rw [Option.some.injEq] at hcon
          exact hssd hcon.symm
        simp [hssd, h3]
  have hmapeq : (List.range seeds.length).map
        (visitTerm seeds P.segmentOrdered s)
      = (List.range seeds.length).map
          (fun i => (P.companions.getD i []).count s
            + (if seeds.getD i none = some s then 1 else 0)) :=
    List.map_congr_left hterm
  rw [hmapeq, sum_split_counts seeds P.companions s (List.range seeds.length)]
  have hA : ((List.range seeds.length).map
      (fun i => (P.companions.getD i []).count s)).sum
      = (P.companions.map (fun l => l.count s)).sum := by
    have hsl : seeds.length = P.companions.length := by
      rw [hlen, hlc]
    rw [hsl]
    exact sum_range_count s P.companions
  have hB : ((List.range seeds.length).map
      (fun i => if seeds.getD i none = some s then 1 else 0)).sum
      = countSeeds seeds s := sum_range_seed s seeds
  rw [hA, hB]
  rcases Nat.eq_zero_or_pos nvisits with h0 | hpos
  · have hall : ∀ o ∈ seeds, o = none := by
      intro o ho
      cases o with
      | none => rfl
      | some t =>
        exfalso
        have hc := hcount t
        rw [h0, Nat.le_zero, countSeeds, List.countP_eq_zero] at hc
        have h2 := hc (some t) ho
        simp at h2
    have hcomp0 : ∀ l ∈ P.companions, l = [] := by
      intro l hl
      rw [List.mem_iff_getElem] at hl
      obtain ⟨i, hiP, hil⟩ := hl
      have hin : i < nSeg := by
        rw [← hlc]
        exact hiP
      have hi2 : i < seeds.length := by
        rw [hlen]
        exact hin
      have hgi : seeds.getD i none = none := by
        have hmem2 : seeds.getD i none ∈ seeds := by
          rw [List.getD_eq_getElem _ _ hi2]
          exact List.getElem_mem hi2
        exact hall _ hmem2
      have h1 := (hseg i hin).1 hgi
      rw [← hil, ← h1.2, List.getD_eq_getElem _ _ hiP]
    have hmap0 : (P.companions.map (fun l => l.count s)).sum = 0 := by
      apply List.sum_eq_zero
      intro x hx
      rw [List.mem_map] at hx
      obtain ⟨l, hl, hxl⟩ := hx
      rw [← hxl, hcomp0 l hl]
      rfl
    have hcs : countSeeds seeds s = 0 := by
      have hc := hcount s
      rw [h0, Nat.le_zero] at hc
      exact hc
    rw [hmap0, hcs]
    exact Nat.zero_le _
  · by_cases hmem : some s ∈ seeds
    · have hmap0 : (P.companions.map (fun l => l.count s)).sum = 0 := by
        apply List.sum_eq_zero
        intro x hx
        rw [List.mem_map] at hx
        obtain ⟨l, hl, hxl⟩ := hx
        rw [← hxl, List.count_eq_zero]
        exact hexc s hmem l hl
      rw [hmap0, Nat.zero_add]
      exact hcount s
    · have hcs : countSeeds seeds s = 0 := by
        rw [countSeeds, List.countP_eq_zero]
        intro a ha
        simp only [beq_iff_eq]
        intro hcon
        rw [hcon] at ha
        exact hmem ha
      rw [hcs]
      have hv := hcap hpos s
      rw [hsum s] at hv
      omega

/-- Sequencer oracle for the C2 witness: visits the seed then the
companions in the order given. -/
noncomputable def seqP : Seq := fun _ _ sd cs => ⟨0, 0, sd :: cs⟩

/-- **C2.**  In the final emitted schedule, for every source `s` the
total number of visits to `s` — its count over all segments' ordered
visit sequences, as tallied by the final visit-count loop — is at
most the configured visit count `nVisits`, for every catalogue and
parameter setting.  The seed loop seeds each source at most `nVisits`
segments; the seed list itself is the companion exclusion list, so a
seed is never also a companion; and the shared visit ledger refuses
any other source once it reaches `nVisits` selections.  The sequencer
is only assumed to emit each segment's seed and companions in some
order. -/
theorem plan_visits_bounded (pos : ℕ → ℝ → Pos) (segT mid : ℕ → ℝ)
    (lstT : ℝ → ℝ) (seq : Seq) (sourceList : List ℕ) (nSeg : ℕ)
    (minel slewing adjacent slopTol maxSlewTime : ℝ) (nvisits : ℕ)
    (fuel : ℕ) (seeds : List (Option ℕ)) (res : PassRes)
    (hseq : ∀ i last sd cs, ((seq i last sd cs).ordered).Perm (sd :: cs))
    (hres : planVisitCounts pos segT mid lstT seq sourceList nSeg minel slewing
      adjacent slopTol maxSlewTime nvisits fuel = some (seeds, res))
    (s : ℕ) :
    ((countVisits seeds res.segmentOrdered) s).getD 0 ≤ nvisits := by
  unfold planVisitCounts at hres
  cases hrl : refineLoop pos segT lstT seq
      (fun i => sourceList.filter (fun t => minel < (pos t (mid i)).el))
      (runSeedLoop pos segT slewing adjacent nvisits
        (fun i => sourceList.filter (fun t => minel < (pos t (mid i)).el))
        nSeg sourceList
        (sourceList.map (fun t =>
          (t, ((List.range nSeg).filter
            (fun i => minel < (pos t (mid i)).el)).length))))
      maxSlewTime nvisits
      (runSeedLoop pos segT slewing adjacent nvisits
        (fun i => sourceList.filter (fun t => minel < (pos t (mid i)).el))
        nSeg sourceList
        (sourceList.map (fun t =>
          (t, ((List.range nSeg).filter
            (fun i => minel < (pos t (mid i)).el)).length))))
      minel nSeg slopTol fuel (List.replicate nSeg 0) with
  | none =>
    rw [hrl] at hres
    have h0 : (none : Option (List (Option ℕ) × PassRes))
        = some (seeds, res) := hres
    cases h0
  | some r =>
    rw [hrl] at hres
    have h2 : (some (runSeedLoop pos segT slewing adjacent nvisits
        (fun i => sourceList.filter (fun t => minel < (pos t (mid i)).el))
        nSeg sourceList
        (sourceList.map (fun t =>
          (t, ((List.range nSeg).filter
            (fun i => minel < (pos t (mid i)).el)).length))), r)
        : Option (List (Option ℕ) × PassRes)) = some (seeds, res) := hres
    rw [Option.some.injEq, Prod.mk.injEq] at h2
    obtain ⟨hseeds, hr⟩ := h2
    subst hr
    subst hseeds
    obtain ⟨extra2, hrp⟩ := refineLoop_runPass pos segT lstT seq
      (fun i => sourceList.filter (fun t => minel < (pos t (mid i)).el))
      (runSeedLoop pos segT slewing adjacent nvisits
        (fun i => sourceList.filter (fun t => minel < (pos t (mid i)).el))
        nSeg sourceList
        (sourceList.map (fun t =>
          (t, ((List.range nSeg).filter
            (fun i => minel < (pos t (mid i)).el)).length))))
      maxSlewTime nvisits
      (runSeedLoop pos segT slewing adjacent nvisits
        (fun i => sourceList.filter (fun t => minel < (pos t (mid i)).el))
        nSeg sourceList
        (sourceList.map (fun t =>
          (t, ((List.range nSeg).filter
            (fun i => minel < (pos t (mid i)).el)).length))))
      minel nSeg slopTol fuel (List.replicate nSeg 0) r hrl
    have hfields := runPass_fields pos segT lstT seq
      (fun i => sourceList.filter (fun t => minel < (pos t (mid i)).el))
      (runSeedLoop pos segT slewing adjacent nvisits
        (fun i => sourceList.filter (fun t => minel < (pos t (mid i)).el))
        nSeg sourceList
        (sourceList.map (fun t =>
          (t, ((List.range nSeg).filter
            (fun i => minel < (pos t (mid i)).el)).length))))
      maxSlewTime nvisits
      (runSeedLoop pos segT slewing adjacent nvisits
        (fun i => sourceList.filter (fun t => minel < (pos t (mid i)).el))
        nSeg sourceList
        (sourceList.map (fun t =>
          (t, ((List.range nSeg).filter
            (fun i => minel < (pos t (mid i)).el)).length))))
      minel nSeg extra2 r hrp
    rw [hfields.1]
    exact countVisits_pass_le pos segT seq
      (fun i => sourceList.filter (fun t => minel < (pos t (mid i)).el))
      (runSeedLoop pos segT slewing adjacent nvisits
        (fun i => sourceList.filter (fun t => minel < (pos t (mid i)).el))
        nSeg sourceList
        (sourceList.map (fun t =>
          (t, ((List.range nSeg).filter
            (fun i => minel < (pos t (mid i)).el)).length))))
      maxSlewTime extra2 nvisits minel nSeg hseq
      (runSeedLoop_length pos segT slewing adjacent nvisits
        (fun i => sourceList.filter (fun t => minel < (pos t (mid i)).el))
        nSeg sourceList
        (sourceList.map (fun t =>
          (t, ((List.range nSeg).filter
            (fun i => minel < (pos t (mid i)).el)).length))))
      (fun u => runSeedLoop_countSeeds pos segT slewing adjacent nvisits
        (fun i => sourceList.filter (fun t => minel < (pos t (mid i)).el))
        nSeg sourceList
        (sourceList.map (fun t =>
          (t, ((List.range nSeg).filter
            (fun i => minel < (pos t (mid i)).el)).length))) u)
      s

/-- Witness for C2: the empty catalogue over zero segments yields the
empty schedule, in which every source is visited 0 ≤ 1 times. -/
theorem plan_visits_bounded_witness :
    ((countVisits [] (PassRes.mk [] [] [] (fun _ => none)
      0 [] []).segmentOrdered) 0).getD 0 ≤ 1 := by
  have hrp : runPass posConst segTid lstTC seqP
      (fun i => List.filter (fun t => decide ((20:ℝ) < (posConst t (segTid i)).el)) [])
      (runSeedLoop posConst segTid 1 1 1
        (fun i => List.filter (fun t => decide ((20:ℝ) < (posConst t (segTid i)).el)) [])
        0 []
        (List.map (fun t =>
          (t, (List.filter (fun i => decide ((20:ℝ) < (posConst t (segTid i)).el))
            (List.range 0)).length)) []))
      1 1
      (runSeedLoop posConst segTid 1 1 1
        (fun i => List.filter (fun t => decide ((20:ℝ) < (posConst t (segTid i)).el)) [])
        0 []
        (List.map (fun t =>
          (t, (List.filter (fun i => decide ((20:ℝ) < (posConst t (segTid i)).el))
            (List.range 0)).length)) []))
      20 0 (List.replicate 0 0)
      = some ⟨[], [], [], fun _ => none, 0, [], []⟩ := rfl
  have h1 : refineLoop posConst segTid lstTC seqP
      (fun i => List.filter (fun t => decide ((20:ℝ) < (posConst t (segTid i)).el)) [])
      (runSeedLoop posConst segTid 1 1 1
        (fun i => List.filter (fun t => decide ((20:ℝ) < (posConst t (segTid i)).el)) [])
        0 []
        (List.map (fun t =>
          (t, (List.filter (fun i => decide ((20:ℝ) < (posConst t (segTid i)).el))
            (List.range 0)).length)) []))
      1 1
      (runSeedLoop posConst segTid 1 1 1
        (fun i => List.filter (fun t => decide ((20:ℝ) < (posConst t (segTid i)).el)) [])
        0 []
        (List.map (fun t =>
          (t, (List.filter (fun i => decide ((20:ℝ) < (posConst t (segTid i)).el))
            (List.range 0)).length)) []))
      20 0 0 1 (List.replicate 0 0)
      = some ⟨[], [], [], fun _ => none, 0, [], []⟩ := by
    rw [show (1:ℕ) = 0 + 1 from rfl, refineLoop, hrp]
    show (if (0:ℝ) ≤ 0 then some (⟨[], [], [], fun _ => none, 0, [], []⟩ : PassRes)
      else refineLoop posConst segTid lstTC seqP
        (fun i => List.filter (fun t => decide ((20:ℝ) < (posConst t (segTid i)).el)) [])
        (runSeedLoop posConst segTid 1 1 1
          (fun i => List.filter (fun t => decide ((20:ℝ) < (posConst t (segTid i)).el)) [])
          0 []
          (List.map (fun t =>
            (t, (List.filter (fun i => decide ((20:ℝ) < (posConst t (segTid i)).el))
              (List.range 0)).length)) []))
        1 1
        (runSeedLoop posConst segTid 1 1 1
          (fun i => List.filter (fun t => decide ((20:ℝ) < (posConst t (segTid i)).el)) [])
          0 []
          (List.map (fun t =>
            (t, (List.filter (fun i => decide ((20:ℝ) < (posConst t (segTid i)).el))
              (List.range 0)).length)) []))
        20 0 0 0 [])
      = some (⟨[], [], [], fun _ => none, 0, [], []⟩ : PassRes)
    rw [if_pos (le_refl (0:ℝ))]
  have hres : planVisitCounts posConst segTid segTid lstTC seqP [] 0
      20 1 1 0 1 1 1
      = some ([], ⟨[], [], [], fun _ => none, 0, [], []⟩) := by
    unfold planVisitCounts
    rw [h1]
    rfl
  exact plan_visits_bounded posConst segTid segTid lstTC seqP [] 0 20 1 1 0 1 1
    1 [] ⟨[], [], [], fun _ => none, 0, [], []⟩
    (fun i last sd cs => List.Perm.refl _) hres 0

end PlanSchedule

